import Mathlib

/-!
Verification of the TaskFlow backend task-orchestration core.

This file gives a shallow embedding of the parts of the code base that the
verified properties talk about:

* the relational data model (`core/db/models/task.py`, `project.py`, `user.py`),
  modelled as lists of records addressed by numeric ids;
* the permission predicates of `core/services/ProjectService.py`
  (`get_user_role_in_project`, `can_edit_task`, `can_create_dependencies`);
* the task-engine operations of `core/services/TaskService.py`
  (`check_task_readiness`, `would_create_cycle`, `create_dependency`,
  `change_task_status`, `handle_task_completed`,
  `execute_dependency_actions`, `execute_single_action`,
  `send_task_notification`, `process_scheduled_actions`);
* the binary edge container of `core/graph.py`
  (`EdgeSchema.get_max_value`, `GraphStorage.add_edge`).

Database writes are modelled by explicit state passing on a `DB` record.
Python exceptions are modelled with `Except`/explicit error results; the
observable side effects of an operation (status writes, event logging,
evaluator invocations, notification dispatches, scheduling) are additionally
recorded in an ordered trace so that ordering properties can be stated.
Wall-clock instants (`datetime.now()`) are passed in as a `Nat` parameter.
Timestamp bookkeeping fields that no verified property mentions
(`created_at`, `updated_at`, `started_at`, `completed_at`) are omitted from
the record types.
-/

namespace TaskFlow

/-- `TaskStatus` rows (`core/db/models/task.py`, class `TaskStatus`). -/
structure TaskStatus where
  id : Nat
  name : String
  is_final : Bool
deriving DecidableEq, Repr

/-- `User` rows; `notification_settings` models the parsed
`notification_settings_dict` JSON object (`core/db/models/user.py`). -/
structure User where
  id : Nat
  username : String
  notification_settings : List (String × Bool)
deriving DecidableEq, Repr

/-- `dict.get(key, True)` on a user's parsed notification settings
(`send_task_notification` reads them with a `True` default). -/
def User.settingsGet (u : User) (key : String) : Bool :=
  match u.notification_settings.find? (fun kv => kv.fst == key) with
  | some kv => kv.snd
  | none => true

/-- `Project` rows (`core/db/models/project.py`); only the fields the
verified operations read. -/
structure Project where
  id : Nat
  name : String
deriving DecidableEq, Repr

/-- `ProjectRole` capability bundle (`core/db/models/project.py`). -/
structure ProjectRole where
  id : Nat
  can_create_tasks : Bool
  can_edit_any_task : Bool
  can_delete_any_task : Bool
  can_edit_own_task : Bool
  can_delete_own_task : Bool
  can_create_dependencies : Bool
  can_delete_dependencies : Bool
deriving DecidableEq, Repr

/-- `ProjectMember` rows; the role foreign key is embedded as a value
(it is always set and is dereferenced by every permission check). -/
structure ProjectMember where
  project : Nat
  user : Nat
  role : ProjectRole
  is_active : Bool
deriving DecidableEq, Repr

/-- `Task` rows. `status`, `assignee`, `creator`, `project` are foreign
keys held as ids, as the services dereference them against the tables. -/
structure Task where
  id : Nat
  project : Nat
  name : String
  status : Nat
  assignee : Option Nat
  creator : Nat
  deadline : Option Nat
deriving DecidableEq, Repr

/-- `TaskDependency` rows: one directed edge `source_task → target_task`. -/
structure TaskDependency where
  id : Nat
  project : Nat
  source_task : Nat
  target_task : Nat
  dependency_type : String
  created_by : Nat
deriving DecidableEq, Repr

/-- `DependencyActionType` reference rows. -/
structure DependencyActionType where
  id : Nat
  code : String
  requires_target_user : Bool
  requires_template : Bool
deriving DecidableEq, Repr

/-- `DependencyAction` rows: one rule attached to a dependency edge. -/
structure DependencyAction where
  id : Nat
  dependency : Nat
  action_type : Nat
  target_user : Option Nat
  target_status : Option Nat
  message_template : Option String
  delay_minutes : Nat
  execute_order : Nat
  is_active : Bool
deriving DecidableEq, Repr

/-- `TaskEvent` rows (append-only log). -/
structure TaskEvent where
  id : Nat
  project : Nat
  task : Nat
  user : Nat
  event_type : String
  old_value : Option String
  new_value : Option String
deriving DecidableEq, Repr

/-- The JSON `payload` column of a `ScheduledAction`, modelled as the
shapes the services actually write and read. -/
inductive Payload where
  | empty
  | deadlineInfo (hours_before : Nat)
  | delayedInfo (action_id : Nat) (trigger_event : String) (triggered_by : String)
  | withResult (orig : Payload)
deriving DecidableEq, Repr

/-- `ScheduledAction` rows (the deferred-work queue). -/
structure ScheduledAction where
  id : Nat
  project : Nat
  task : Nat
  action_type : String
  scheduled_for : Nat
  executed_at : Option Nat
  payload : Option Payload
  dependency_action : Option Nat
  status : String
deriving DecidableEq, Repr

/-- The relational store; `next_id` models the auto-increment id source of
freshly created rows. -/
structure DB where
  statuses : List TaskStatus
  users : List User
  projects : List Project
  members : List ProjectMember
  tasks : List Task
  dependencies : List TaskDependency
  action_types : List DependencyActionType
  actions : List DependencyAction
  events : List TaskEvent
  scheduled : List ScheduledAction
  next_id : Nat
deriving Repr

-- ------------------- foreign-key dereference / lookups -------------------

/-- Dereference a `TaskStatus` foreign key; `none` models a raised
`DoesNotExist`. -/
def getStatus (db : DB) (sid : Nat) : Option TaskStatus :=
  db.statuses.find? (fun s => s.id == sid)

/-- Dereference a `User` foreign key. -/
def getUser (db : DB) (uid : Nat) : Option User :=
  db.users.find? (fun u => u.id == uid)

/-- Dereference a `Project` foreign key. -/
def getProject (db : DB) (pid : Nat) : Option Project :=
  db.projects.find? (fun p => p.id == pid)

/-- Dereference a `Task` foreign key. -/
def getTask (db : DB) (tid : Nat) : Option Task :=
  db.tasks.find? (fun t => t.id == tid)

/-- Dereference a `TaskDependency` foreign key. -/
def getDependency (db : DB) (did : Nat) : Option TaskDependency :=
  db.dependencies.find? (fun d => d.id == did)

/-- Dereference a `DependencyActionType` foreign key. -/
def getActionType (db : DB) (aid : Nat) : Option DependencyActionType :=
  db.action_types.find? (fun t => t.id == aid)

/-- `TaskService.get_status_by_name`. -/
def get_status_by_name (db : DB) (name : String) : Option TaskStatus :=
  db.statuses.find? (fun s => s.name == name)

/-- UPDATE of a task row by primary key (`task.save()`). -/
def saveTask (db : DB) (t : Task) : DB :=
  { db with tasks := db.tasks.map (fun x => if x.id == t.id then t else x) }

/-- UPDATE of a scheduled-action row by primary key (`scheduled.save()`). -/
def saveScheduled (db : DB) (r : ScheduledAction) : DB :=
  { db with scheduled := db.scheduled.map (fun x => if x.id == r.id then r else x) }

/-- `TaskEvent.log`: append one event row. Peewee truthiness: an empty
string value is stored as NULL (`str(v) if v else None`). -/
def logEvent (db : DB) (project task user : Nat) (event_type : String)
    (old_value new_value : Option String) : DB :=
  let keep : Option String → Option String := fun v =>
    match v with
    | some s => if s == "" then none else some s
    | none => none
  { db with
    events := db.events ++
      [{ id := db.next_id, project := project, task := task, user := user,
         event_type := event_type, old_value := keep old_value,
         new_value := keep new_value }],
    next_id := db.next_id + 1 }

-- ------------------- ProjectService permission predicates -------------------

/-- `ProjectService.get_user_role_in_project`: the role of the unique
active membership row, if any. -/
def get_user_role_in_project (db : DB) (userId projectId : Nat) :
    Option ProjectRole :=
  (db.members.find? (fun m =>
    m.project == projectId && m.user == userId && m.is_active)).map
    (fun m => m.role)

/-- `ProjectService.can_edit_task`. -/
def can_edit_task (db : DB) (user : User) (task : Task) : Bool :=
  match get_user_role_in_project db user.id task.project with
  | none => false
  | some role =>
    if role.can_edit_any_task then true
    else if role.can_edit_own_task then
      task.creator == user.id || task.assignee == some user.id
    else false

/-- Python exceptions raised by the services. -/
inductive PyErr where
  | attributeError
  | permissionError (msg : String)
  | valueError (msg : String)
  | doesNotExist
deriving DecidableEq, Repr

/-- `ProjectService.can_create_dependencies`. The developer branch
evaluates `task.creator.id == user.id or task.assignee.id == user.id`;
when the task has no assignee, `task.assignee` is `None` and the `.id`
attribute access raises `AttributeError`. -/
def can_create_dependencies (db : DB) (user : User) (task : Task) :
    Except PyErr Bool :=
  match get_user_role_in_project db user.id task.project with
  | none => .ok false
  | some role =>
    if role.can_create_dependencies && role.can_edit_any_task then .ok true
    else if role.can_create_dependencies then
      if task.creator == user.id then .ok true
      else
        match task.assignee with
        | none => .error .attributeError
        | some a => .ok (a == user.id)
    else .ok false

-- ------------------- TaskService.check_task_readiness -------------------

/-- Incoming dependency edges of a task
(`dependency_model.project == task.project and target_task == task`). -/
def incomingDeps (db : DB) (task : Task) : List TaskDependency :=
  db.dependencies.filter (fun d =>
    d.project == task.project && d.target_task == task.id)

/-- Outgoing dependency edges of a task. -/
def outgoingDeps (db : DB) (task : Task) : List TaskDependency :=
  db.dependencies.filter (fun d =>
    d.project == task.project && d.source_task == task.id)

/-- The per-edge loop of `check_task_readiness`: dereference each source
task and its status; return `false` at the first source whose status name
is not `"completed"`. `none` models a raised `DoesNotExist`. -/
def sourcesCompleted (db : DB) : List TaskDependency → Option Bool
  | [] => some true
  | dep :: rest =>
    match getTask db dep.source_task with
    | none => none
    | some src =>
      match getStatus db src.status with
      | none => none
      | some st =>
        if st.name ≠ "completed" then some false
        else sourcesCompleted db rest

/-- `TaskService.check_task_readiness`: `false` unless the task's status is
named `todo`; then `true` iff every incoming edge's source has status
`completed` (vacuously `true` with no incoming edges). -/
def check_task_readiness (db : DB) (task : Task) : Option Bool :=
  match getStatus db task.status with
  | none => none
  | some st =>
    if st.name ≠ "todo" then some false
    else sourcesCompleted db (incomingDeps db task)

/-- Status name of the source task of an edge, through both foreign keys
(used to state the readiness property). -/
def sourceStatusName (db : DB) (dep : TaskDependency) : Option String :=
  (getTask db dep.source_task).bind fun src =>
    (getStatus db src.status).map (fun st => st.name)

-- ------------------- TaskService.would_create_cycle -------------------

/-- The edges the DFS of `would_create_cycle` follows out of `taskId`:
dependencies of the source's project whose `source_task_id` is `taskId`. -/
def depsFrom (db : DB) (proj taskId : Nat) : List TaskDependency :=
  db.dependencies.filter (fun d => d.project == proj && d.source_task == taskId)

mutual
/-- The inner `dfs(task_id)` of `TaskService.would_create_cycle`: returns
`true` on reaching `srcId`, skips already-visited ids, otherwise marks
`taskId` visited and explores its outgoing edges. The Python recursion is
unbounded; its depth is at most one more than the number of edges (each
nested call first adds a fresh id to `visited`, and every id beyond the
initial one is the target of some edge), so the explicit `fuel` used for
termination here never runs out at the fuel passed by
`would_create_cycle`. -/
def dfsVisit (db : DB) (proj srcId : Nat) (fuel taskId : Nat)
    (visited : List Nat) : Bool × List Nat :=
  match fuel with
  | 0 => (false, visited)
  | fuel + 1 =>
    if taskId = srcId then (true, visited)
    else if taskId ∈ visited then (false, visited)
    else dfsFold db proj srcId fuel (depsFrom db proj taskId) (taskId :: visited)
termination_by (fuel, 0)

/-- The `for dep in deps` loop of the DFS: recurse into each edge target,
returning `true` as soon as a recursive call finds `srcId`. -/
def dfsFold (db : DB) (proj srcId : Nat) (fuel : Nat)
    (deps : List TaskDependency) (visited : List Nat) : Bool × List Nat :=
  match deps with
  | [] => (false, visited)
  | d :: rest =>
    match dfsVisit db proj srcId fuel d.target_task visited with
    | (true, v) => (true, v)
    | (false, v) => dfsFold db proj srcId fuel rest v
termination_by (fuel, deps.length + 1)
end

/-- `TaskService.would_create_cycle`: `true` iff the DFS from
`target.id` over the edges of `source`'s project reaches `source.id`. -/
def would_create_cycle (db : DB) (source target : Task) : Bool :=
  (dfsVisit db source.project source.id (db.dependencies.length + 2)
    target.id []).fst

-- ------------------- observable effects -------------------

/-- The payload handed to `UserService.send_telegram_notification`
(`task_data` in `send_task_notification`); fields that a given call site
does not put into the dict are `none`. -/
structure NotifData where
  task_id : Nat
  task_name : String
  project_name : String
  message : Option String
  deadline : Option Nat
  hours_left : Option Nat
deriving DecidableEq, Repr

/-- One observable side effect of an engine operation, in program order. -/
inductive Effect where
  | statusWrite (taskId statusId : Nat)
  | logged (taskId : Nat) (event_type : String)
  | evalEdge (depId : Nat)
  | notify (userId : Nat) (kind : String) (data : NotifData)
  | scheduleRow (rowId : Nat)
deriving DecidableEq, Repr

/-- Database plus the ordered trace of observable effects. -/
structure World where
  db : DB
  trace : List Effect

/-- Append one effect to the trace. -/
def World.emit (w : World) (e : Effect) : World :=
  { w with trace := w.trace ++ [e] }

/-- Replace the database component. -/
def World.setDB (w : World) (db : DB) : World :=
  { w with db := db }

-- ------------------- TaskService.send_task_notification -------------------

/-- `TaskService.send_task_notification`: consult the recipient's parsed
notification settings (default `True` per key); return `False` without
dispatching when the relevant preference is off, otherwise dispatch the
payload to the notifier and return `True`. -/
def send_task_notification (w : World) (user : User)
    (notification_type : String) (task_data : NotifData) : World × Bool :=
  if notification_type == "task_ready" && !(user.settingsGet "dependency_ready") then
    (w, false)
  else if notification_type == "task_completed" && !(user.settingsGet "task_completed") then
    (w, false)
  else if notification_type == "task_assigned" && !(user.settingsGet "task_assigned") then
    (w, false)
  else
    (w.emit (.notify user.id notification_type task_data), true)

-- ------------------- TaskService.execute_single_action -------------------

/-- The per-action result dict built by `execute_single_action` (and, for
delayed actions, by `execute_dependency_actions`). -/
structure ActionResult where
  action_id : Nat
  type_code : String
  status : String
  target_user : Option String
  new_status : Option String
  scheduled_for : Option Nat
  error : Option String
deriving DecidableEq, Repr

/-- `action.message_template or default`: Python truthiness treats both
`None` and the empty string as absent. -/
def templateOr (template : Option String) (default : String) : String :=
  match template with
  | some t => if t == "" then default else t
  | none => default

/-- `TaskService.execute_single_action`. The result dict's `type` field
dereferences `action.action_type` before the `try` block, so a missing
action-type row raises out of the call; every failure inside the
dispatching `try` block is caught and reported as a `failed` result.
Unmatched codes (or a `change_status`/`notify_custom` action missing its
target) fall through with an `executed` result and no effect. -/
def execute_single_action (w : World) (action : DependencyAction)
    (trigger_event : String) (triggered_by : User) :
    World × Except PyErr ActionResult :=
  let _ := trigger_event
  match getActionType w.db action.action_type with
  | none => (w, .error .doesNotExist)
  | some atype =>
    let base : ActionResult :=
      { action_id := action.id, type_code := atype.code, status := "executed",
        target_user := none, new_status := none, scheduled_for := none,
        error := none }
    let failed : ActionResult :=
      { base with status := "failed", error := some "exception" }
    if atype.code == "notify_assignee" then
      match getDependency w.db action.dependency with
      | none => (w, .ok failed)
      | some dep =>
        match getTask w.db dep.target_task with
        | none => (w, .ok failed)
        | some target_task =>
          match target_task.assignee with
          | none => (w, .ok base)
          | some assigneeId =>
            match getUser w.db assigneeId, getProject w.db target_task.project with
            | some assignee, some proj =>
              let data : NotifData :=
                { task_id := target_task.id, task_name := target_task.name,
                  project_name := proj.name,
                  message := some (templateOr action.message_template
                    ("Задача готова к выполнению: " ++ target_task.name)),
                  deadline := none, hours_left := none }
              let w := (send_task_notification w assignee "task_ready" data).1
              (w, .ok { base with target_user := some assignee.username })
            | _, _ => (w, .ok failed)
    else if atype.code == "notify_creator" then
      match getDependency w.db action.dependency with
      | none => (w, .ok failed)
      | some dep =>
        match getTask w.db dep.source_task with
        | none => (w, .ok failed)
        | some source_task =>
          match getUser w.db source_task.creator, getProject w.db source_task.project with
          | some creator, some proj =>
            let data : NotifData :=
              { task_id := source_task.id, task_name := source_task.name,
                project_name := proj.name,
                message := some (templateOr action.message_template
                  ("Задача выполнена: " ++ source_task.name)),
                deadline := none, hours_left := none }
            let w := (send_task_notification w creator "task_completed" data).1
            (w, .ok { base with target_user := some creator.username })
          | _, _ => (w, .ok failed)
    else if atype.code == "notify_custom" then
      match action.target_user with
      | none => (w, .ok base)
      | some targetUserId =>
        match getUser w.db targetUserId with
        | none => (w, .ok failed)
        | some target_user =>
          match getDependency w.db action.dependency with
          | none => (w, .ok failed)
          | some dep =>
            match getTask w.db dep.target_task, getProject w.db dep.project with
            | some target_task, some proj =>
              let data : NotifData :=
                { task_id := target_task.id, task_name := target_task.name,
                  project_name := proj.name,
                  message := some (templateOr action.message_template
                    "Уведомление о задаче"),
                  deadline := none, hours_left := none }
              let w := (send_task_notification w target_user "custom" data).1
              (w, .ok { base with target_user := some target_user.username })
            | _, _ => (w, .ok failed)
    else if atype.code == "change_status" then
      match action.target_status with
      | none => (w, .ok base)
      | some targetStatusId =>
        match getStatus w.db targetStatusId with
        | none => (w, .ok failed)
        | some target_status =>
          match getDependency w.db action.dependency with
          | none => (w, .ok failed)
          | some dep =>
            match getTask w.db dep.target_task with
            | none => (w, .ok failed)
            | some target_task =>
              match getStatus w.db target_task.status with
              | none => (w, .ok failed)
              | some old_status =>
                let target_task := { target_task with status := target_status.id }
                let w := w.setDB (saveTask w.db target_task)
                let w := w.emit (.statusWrite target_task.id target_status.id)
                let w := w.setDB (logEvent w.db target_task.project target_task.id
                  triggered_by.id "status_changed" (some old_status.name)
                  (some target_status.name))
                let w := w.emit (.logged target_task.id "status_changed")
                (w, .ok { base with new_status := some target_status.name })
    else
      (w, .ok base)

-- ------------------- TaskService.execute_dependency_actions -------------------

/-- Stable insertion into a list sorted by `execute_order` (a new element
goes after existing elements with the same order value). -/
def insertByOrder (a : DependencyAction) :
    List DependencyAction → List DependencyAction
  | [] => [a]
  | b :: rest =>
    if a.execute_order < b.execute_order then a :: b :: rest
    else b :: insertByOrder a rest

/-- `ORDER BY execute_order` over the selected action rows (stable). -/
def sortByOrder (l : List DependencyAction) : List DependencyAction :=
  l.foldl (fun acc a => insertByOrder a acc) []

/-- The per-action body of the loop in
`TaskService.execute_dependency_actions`: delayed actions insert a
`ScheduledAction` row (for `delayed_notification`), immediate actions go
through `execute_single_action`. In the delayed branch the reported
result dict dereferences `action.action_type` only after the row has been
written. -/
def runOneAction (w : World) (dep : TaskDependency)
    (trigger_event : String) (triggered_by : User) (now : Nat)
    (action : DependencyAction) : World × Except PyErr ActionResult :=
  if action.delay_minutes > 0 then
    let row : ScheduledAction :=
      { id := w.db.next_id, project := dep.project, task := dep.target_task,
        action_type := "delayed_notification",
        scheduled_for := now + action.delay_minutes, executed_at := none,
        payload := some (.delayedInfo action.id trigger_event
          triggered_by.username),
        dependency_action := some action.id, status := "pending" }
    let w := w.setDB { w.db with
      scheduled := w.db.scheduled ++ [row], next_id := w.db.next_id + 1 }
    let w := w.emit (.scheduleRow row.id)
    match getActionType w.db action.action_type with
    | none => (w, .error .doesNotExist)
    | some atype =>
      (w, .ok { action_id := action.id, type_code := atype.code,
                status := "scheduled", target_user := none, new_status := none,
                scheduled_for := some row.scheduled_for, error := none })
  else
    execute_single_action w action trigger_event triggered_by

/-- The loop of `execute_dependency_actions`, accumulating the per-action
result dicts; an uncaught exception aborts the loop but keeps all effects
performed so far. -/
def runActions (w : World) (dep : TaskDependency) (trigger_event : String)
    (triggered_by : User) (now : Nat) :
    List DependencyAction → List ActionResult →
    World × Except PyErr (List ActionResult)
  | [], acc => (w, .ok acc)
  | a :: rest, acc =>
    let step := runOneAction w dep trigger_event triggered_by now a
    match step.2 with
    | .error e => (step.1, .error e)
    | .ok r =>
      runActions step.1 dep trigger_event triggered_by now rest (acc ++ [r])

/-- `TaskService.execute_dependency_actions`: select the active actions of
the edge ordered by `execute_order` and run them in order. Entering the
evaluator for an edge is recorded as an `evalEdge` effect. -/
def execute_dependency_actions (w : World) (dep : TaskDependency)
    (trigger_event : String) (triggered_by : User) (now : Nat) :
    World × Except PyErr (List ActionResult) :=
  let w := w.emit (.evalEdge dep.id)
  let acts := sortByOrder (w.db.actions.filter (fun a =>
    a.dependency == dep.id && a.is_active))
  runActions w dep trigger_event triggered_by now acts []

-- ------------------- TaskService.handle_task_completed -------------------

/-- The loop of `handle_task_completed` over the outgoing edges: run the
edge's actions, then call `check_task_readiness` on the (dereferenced)
target task, discarding its result exactly as the source does. -/
def handleDeps (w : World) (completed_by : User) (now : Nat) :
    List TaskDependency → List ActionResult →
    World × Except PyErr (List ActionResult)
  | [], acc => (w, .ok acc)
  | dep :: rest, acc =>
    let step := execute_dependency_actions w dep "task_completed" completed_by now
    match step.2 with
    | .error e => (step.1, .error e)
    | .ok rs =>
      match getTask step.1.db dep.target_task with
      | none => (step.1, .error .doesNotExist)
      | some target =>
        let _ := check_task_readiness step.1.db target
        handleDeps step.1 completed_by now rest (acc ++ rs)

/-- `TaskService.handle_task_completed`: evaluate the actions of every
outgoing edge of the just-completed task. -/
def handle_task_completed (w : World) (task : Task) (completed_by : User)
    (now : Nat) : World × Except PyErr (List ActionResult) :=
  handleDeps w completed_by now (outgoingDeps w.db task) []

-- ------------------- TaskService.change_task_status -------------------

/-- The structured result of `change_task_status`. -/
structure ChangeResult where
  task : Task
  status_changed : Bool
  old_status : TaskStatus
  new_status : TaskStatus
  actions_executed : List ActionResult
deriving DecidableEq, Repr

/-- `TaskService.change_task_status`: permission check, status lookup,
no-op on an unchanged status id, otherwise write the status, log the
event and — exactly when the transition enters a final status from a
non-final one — run `handle_task_completed` (whose failure is caught and
logged, leaving `actions_executed` empty). -/
def change_task_status (w : World) (task : Task) (new_status_name : String)
    (changed_by : User) (now : Nat) : World × Except PyErr ChangeResult :=
  if !can_edit_task w.db changed_by task then
    (w, .error (.permissionError
      "You don't have permission to change this task status"))
  else
    match get_status_by_name w.db new_status_name with
    | none => (w, .error (.valueError "Status not found"))
    | some new_status =>
      match getStatus w.db task.status with
      | none => (w, .error .doesNotExist)
      | some old_status =>
        if old_status.id == new_status.id then
          (w, .ok { task := task, status_changed := false,
                    old_status := old_status, new_status := new_status,
                    actions_executed := [] })
        else
          let task := { task with status := new_status.id }
          let w := w.setDB (saveTask w.db task)
          let w := w.emit (.statusWrite task.id new_status.id)
          let w := w.setDB (logEvent w.db task.project task.id changed_by.id
            "status_changed" (some old_status.name) (some new_status.name))
          let w := w.emit (.logged task.id "status_changed")
          if new_status.is_final && !old_status.is_final then
            let step := handle_task_completed w task changed_by now
            match step.2 with
            | .ok acts =>
              (step.1, .ok { task := task, status_changed := true,
                             old_status := old_status,
                             new_status := new_status,
                             actions_executed := acts })
            | .error _ =>
              (step.1, .ok { task := task, status_changed := true,
                             old_status := old_status,
                             new_status := new_status,
                             actions_executed := [] })
          else
            (w, .ok { task := task, status_changed := true,
                      old_status := old_status, new_status := new_status,
                      actions_executed := [] })

-- ------------------- TaskService.create_dependency -------------------

/-- `TaskService.create_dependency`: permission check (which may itself
raise, see `can_create_dependencies`), same-project check, cycle check,
duplicate check, then insert the edge, log the event, and — when the
source task is already in a final status — run the new edge's actions
immediately. All four rejections happen before anything is written. -/
def create_dependency (w : World) (source_task target_task : Task)
    (created_by : User) (dependency_type : String) (now : Nat) :
    World × Except PyErr TaskDependency :=
  match can_create_dependencies w.db created_by source_task with
  | .error e => (w, .error e)
  | .ok perm =>
    if !perm then
      (w, .error (.permissionError
        "You don't have permission to create dependencies for this task"))
    else if source_task.project ≠ target_task.project then
      (w, .error (.valueError "Tasks must be in the same project"))
    else if would_create_cycle w.db source_task target_task then
      (w, .error (.valueError "This dependency would create a cycle"))
    else if (w.db.dependencies.find? (fun d =>
        d.project == source_task.project &&
        d.source_task == source_task.id &&
        d.target_task == target_task.id)).isSome then
      (w, .error (.valueError "Dependency already exists"))
    else
      let dep : TaskDependency :=
        { id := w.db.next_id, project := source_task.project,
          source_task := source_task.id, target_task := target_task.id,
          dependency_type := dependency_type, created_by := created_by.id }
      let w := w.setDB { w.db with
        dependencies := w.db.dependencies ++ [dep],
        next_id := w.db.next_id + 1 }
      let w := w.setDB (logEvent w.db source_task.project source_task.id
        created_by.id "dependency_added" none none)
      let w := w.emit (.logged source_task.id "dependency_added")
      match getStatus w.db source_task.status with
      | none => (w, .error .doesNotExist)
      | some st =>
        if st.is_final then
          let step := execute_dependency_actions w dep "task_completed" created_by now
          match step.2 with
          | .error e => (step.1, .error e)
          | .ok _ => (step.1, .ok dep)
        else (w, .ok dep)

-- ------------------- TaskService.process_scheduled_actions -------------------

/-- One entry of the list returned by `process_scheduled_actions`. -/
structure ProcessedEntry where
  id : Nat
  type_code : String
  status : String
deriving DecidableEq, Repr

/-- The body of the worker loop for one selected row: mark it
`processing`, dispatch by `action_type`, then mark `completed` with
`executed_at = now`; any exception during dispatch is caught, the row is
marked `failed` and saved — without touching `executed_at`. A row whose
`action_type` matches no branch still gets `executed_at` set and a
`completed` entry (its status stays `processing`). -/
def processOne (w : World) (now : Nat) (r0 : ScheduledAction) :
    World × ProcessedEntry :=
  let r := { r0 with status := "processing" }
  let w := w.setDB (saveScheduled w.db r)
  let fail : World → World × ProcessedEntry := fun w =>
    let r := { r with status := "failed" }
    (w.setDB (saveScheduled w.db r),
     { id := r.id, type_code := r.action_type, status := "failed" })
  let finish : World → ScheduledAction → World × ProcessedEntry := fun w r =>
    let r := { r with executed_at := some now }
    (w.setDB (saveScheduled w.db r),
     { id := r.id, type_code := r.action_type, status := "completed" })
  if r.action_type == "deadline_approaching" then
    match getTask w.db r.task with
    | none => fail w
    | some task =>
      let hours_left : Nat :=
        match r.payload with
        | some (.deadlineInfo h) => h
        | _ => 24
      match task.assignee with
      | none => finish w { r with status := "completed" }
      | some assigneeId =>
        match getUser w.db assigneeId, getProject w.db task.project with
        | some assignee, some proj =>
          let data : NotifData :=
            { task_id := task.id, task_name := task.name,
              project_name := proj.name, message := none,
              deadline := task.deadline, hours_left := some hours_left }
          let w := (send_task_notification w assignee
            "deadline_approaching" data).1
          finish w { r with status := "completed" }
        | _, _ => fail w
  else if r.action_type == "delayed_notification" && r.dependency_action.isSome then
    match r.dependency_action.bind (fun aid =>
        w.db.actions.find? (fun a => a.id == aid)) with
    | none => fail w
    | some action =>
      match getDependency w.db action.dependency with
      | none => fail w
      | some dep =>
        match getUser w.db dep.created_by with
        | none => fail w
        | some creator =>
          let res := execute_single_action w action "delayed" creator
          match res.2 with
          | .error _ => fail res.1
          | .ok _ =>
            let merged : Option Payload := some (.withResult (r.payload.getD .empty))
            finish res.1 { r with status := "completed", payload := merged }
  else
    finish w r

/-- The worker loop over the selected rows. -/
def processLoop (now : Nat) :
    World → List ScheduledAction → List ProcessedEntry →
    World × List ProcessedEntry
  | w, [], acc => (w, acc)
  | w, r :: rest, acc =>
    let step := processOne w now r
    processLoop now step.1 rest (acc ++ [step.2])

/-- The rows a worker tick selects: at most 100 rows with
`scheduled_for <= now` and status `pending`, in table order (the query
has no ORDER BY clause). -/
def dueRows (db : DB) (now : Nat) : List ScheduledAction :=
  (db.scheduled.filter (fun r =>
    decide (r.scheduled_for ≤ now) && r.status == "pending")).take 100

/-- `TaskService.process_scheduled_actions`: one worker tick. -/
def process_scheduled_actions (w : World) (now : Nat) :
    World × List ProcessedEntry :=
  processLoop now w (dueRows w.db now) []

/-- Lookup of a scheduled-action row by id (for stating properties of the
worker tick). -/
def getScheduled (db : DB) (rid : Nat) : Option ScheduledAction :=
  db.scheduled.find? (fun r => r.id == rid)

/-- The notification dispatches contained in a trace, in order. -/
def notifications (trace : List Effect) : List (Nat × String × NotifData) :=
  trace.filterMap (fun e =>
    match e with
    | .notify u k d => some (u, k, d)
    | _ => none)

-- ------------------- spec-side relations (for statements) -------------------

/-- One dependency edge of project `proj` leads from task `a` to task `b`. -/
def depStep (db : DB) (proj : Nat) (a b : Nat) : Prop :=
  ∃ d ∈ db.dependencies, d.project = proj ∧ d.source_task = a ∧ d.target_task = b

/-- `b` is reachable from `a` over the dependency edges of project `proj`
(reflexive-transitive closure of `depStep`). -/
def Reach (db : DB) (proj : Nat) : Nat → Nat → Prop :=
  Relation.ReflTransGen (depStep db proj)

/-- The dependency edge set of a project is acyclic: no edge starts a path
leading back to its own source. -/
def AcyclicProject (db : DB) (proj : Nat) : Prop :=
  ∀ a b, depStep db proj a b → ¬ Reach db proj b a

/-- Closure invariant of the `would_create_cycle` DFS: every id the DFS
added to the visited list (the part of `v2` beyond `v1`) is not the
searched source and has all its edge successors inside `v2`. -/
def dfsClosed (db : DB) (proj srcId : Nat) (v2 v1 : List Nat) : Prop :=
  ∀ x ∈ v2, x ∉ v1 → x ≠ srcId ∧
    ∀ d ∈ db.dependencies, d.project = proj → d.source_task = x →
      d.target_task ∈ v2

/-- Left-to-right, non-overlapping replacement of every occurrence of
`pat` by `rep` (the semantics of Python's `str.replace`); the `skip`
counter consumes the remainder of a just-matched occurrence. -/
def replaceGo (pat rep : List Char) : Nat → List Char → List Char
  | _, [] => []
  | skip + 1, _ :: rest => replaceGo pat rep skip rest
  | 0, c :: rest =>
    if pat.isPrefixOf (c :: rest) ∧ pat ≠ [] then
      rep ++ replaceGo pat rep (pat.length - 1) rest
    else c :: replaceGo pat rep 0 rest

/-- Modelled from the spec (§4.6 "Template substitution"): pure string
replacement of the documented placeholder keys in a message template.
The code under `src/` has no counterpart of this operation; it is defined
here only to state the substitution claim against the code's behaviour. -/
def substituteTemplate (template task_name project_name user : String) : String :=
  let s1 := replaceGo "{task_name}".toList task_name.toList 0 template.toList
  let s2 := replaceGo "{project_name}".toList project_name.toList 0 s1
  let s3 := replaceGo "{user}".toList user.toList 0 s2
  String.mk s3

end TaskFlow

namespace Graph

/-- `graph.Field`: one field of the binary edge record. Only the fields
the range-checking path reads are kept (`name`, `dtype`); sizes are
recovered from the dtype table of `Field._format_map`. -/
structure GField where
  name : String
  dtype : String
deriving DecidableEq, Repr

/-- The byte size assigned to each supported dtype by
`Field._format_map`. -/
def dtypeSize (dtype : String) : Nat :=
  if dtype == "uint8" || dtype == "int8" then 1
  else if dtype == "uint16" || dtype == "int16" then 2
  else if dtype == "uint32" || dtype == "int32" then 4
  else if dtype == "uint64" || dtype == "int64" then 8
  else 0

/-- `graph.EdgeSchema`: the ordered field list of the record layout. -/
structure EdgeSchema where
  fields : List GField
deriving DecidableEq, Repr

/-- `EdgeSchema.total_size`: bytes per packed record. -/
def EdgeSchema.total_size (s : EdgeSchema) : Nat :=
  (s.fields.map (fun f => dtypeSize f.dtype)).sum

/-- Character-list infix test (helper for `strIn`). -/
def infixCheck (sub : List Char) : List Char → Bool
  | [] => sub.isEmpty
  | c :: rest => sub.isPrefixOf (c :: rest) || infixCheck sub rest

/-- Substring containment, as Python's `in` operator on strings
(`get_max_value` tests `'uint8' in dtype` and so on). -/
def strIn (sub s : String) : Bool :=
  infixCheck sub.toList s.toList

/-- `EdgeSchema.get_field_dtype`: dtype of a named field, with the
source's `'uint16'` fallback for unknown names. -/
def EdgeSchema.get_field_dtype (s : EdgeSchema) (field_name : String) : String :=
  match s.fields.find? (fun f => f.name == field_name) with
  | some f => f.dtype
  | none => "uint16"

/-- `EdgeSchema.get_max_value`: the upper bound used by the range check of
`add_edge`, selected by substring tests on the dtype in source order; any
dtype matching no branch (in particular `uint64` and `int64`) falls back
to `65535`. -/
def EdgeSchema.get_max_value (s : EdgeSchema) (field_name : String) : Int :=
  let dtype := s.get_field_dtype field_name
  if strIn "uint8" dtype then 255
  else if strIn "uint16" dtype then 65535
  else if strIn "uint32" dtype then 4294967295
  else if strIn "int8" dtype then 127
  else if strIn "int16" dtype then 32767
  else if strIn "int32" dtype then 2147483647
  else 65535

/-- Little-endian encoding of a (non-negative, already range-checked)
value into `size` bytes, as `struct.pack_into` lays it out. -/
def encodeLE : Nat → Nat → List Nat
  | 0, _ => []
  | size + 1, v => (v % 256) :: encodeLE size (v / 256)

/-- The value supplied for a named field (first binding wins, as in a
Python `dict`). -/
def valueOf (fields : List (String × Int)) (name : String) : Int :=
  match fields.find? (fun kv => kv.fst == name) with
  | some kv => kv.snd
  | none => 0

/-- `EdgeSchema.pack_into` for one record: each schema field in order,
little-endian at its fixed offset (appending the packed record is
equivalent to the source's extend-with-zeros-then-pack-at-offset, since
the buffer length is always `num_edges * total_size`). -/
def packRecord (s : EdgeSchema) (fields : List (String × Int)) : List Nat :=
  (s.fields.map (fun f =>
    encodeLE (dtypeSize f.dtype) (valueOf fields f.name).toNat)).flatten

/-- `graph.GraphStorage`: the schema plus the packed edge buffer. -/
structure GraphStorage where
  schema : EdgeSchema
  source_field : String
  target_field : String
  buffer : List Nat
  num_edges : Nat
deriving DecidableEq, Repr

/-- Python exceptions of the edge store (both checks raise `ValueError`
in the source, with distinct messages). -/
inductive GraphErr where
  | missingField (name : String)
  | outOfRange (name : String)
deriving DecidableEq, Repr

/-- `GraphStorage.add_edge`: first require every schema field to be
present, then range-check each supplied schema-field value against
`get_max_value` (rejecting all negative values), then append the packed
record and return the 0-based index of the new edge. Both failures are
raised before the buffer is touched. Values are modelled as integers, so
the source's `isinstance` number check always passes. -/
def add_edge (g : GraphStorage) (fields : List (String × Int)) :
    Except GraphErr (GraphStorage × Nat) :=
  match g.schema.fields.find? (fun f =>
      (fields.find? (fun kv => kv.fst == f.name)).isNone) with
  | some f => .error (.missingField f.name)
  | none =>
    match fields.find? (fun kv =>
        (g.schema.fields.find? (fun f => f.name == kv.fst)).isSome &&
        (kv.snd < 0 || kv.snd > g.schema.get_max_value kv.fst)) with
    | some kv => .error (.outOfRange kv.fst)
    | none =>
      let extended := { g with buffer := g.buffer ++ packRecord g.schema fields,
                               num_edges := g.num_edges + 1 }
      .ok (extended, g.num_edges)

/-- The genuine lower bound of each supported dtype (0 for the unsigned
ones, two's-complement minimum for the signed ones). -/
def dtypeLo (dtype : String) : Int :=
  if dtype == "int8" then -128
  else if dtype == "int16" then -32768
  else if dtype == "int32" then -2147483648
  else if dtype == "int64" then -9223372036854775808
  else 0

/-- The genuine upper bound of each supported dtype (`-1` for unsupported
names, making `representable` unsatisfiable there). -/
def dtypeHi (dtype : String) : Int :=
  if dtype == "uint8" then 255
  else if dtype == "int8" then 127
  else if dtype == "uint16" then 65535
  else if dtype == "int16" then 32767
  else if dtype == "uint32" then 4294967295
  else if dtype == "int32" then 2147483647
  else if dtype == "uint64" then 18446744073709551615
  else if dtype == "int64" then 9223372036854775807
  else -1

/-- A value is representable in a dtype (used to state the range claim):
the genuine two's-complement / unsigned bounds of the dtype. -/
def representable (dtype : String) (v : Int) : Prop :=
  dtypeLo dtype ≤ v ∧ v ≤ dtypeHi dtype

instance (dtype : String) (v : Int) : Decidable (representable dtype v) :=
  inferInstanceAs (Decidable (_ ∧ _))

end Graph

/-! ## Concrete instances (used by witnesses and counterexamples) -/

namespace TaskFlow

/-- The three canonical statuses the scenarios use. -/
def stTodo : TaskStatus := { id := 1, name := "todo", is_final := false }

def stInProgress : TaskStatus := { id := 2, name := "in_progress", is_final := false }

def stCompleted : TaskStatus := { id := 3, name := "completed", is_final := true }

/-- The standard status table. -/
def stdStatuses : List TaskStatus := [stTodo, stInProgress, stCompleted]

/-- An owner-like role: every capability granted. -/
def roleOwner : ProjectRole :=
  { id := 1, can_create_tasks := true, can_edit_any_task := true,
    can_delete_any_task := true, can_edit_own_task := true,
    can_delete_own_task := true, can_create_dependencies := true,
    can_delete_dependencies := true }

/-- A developer role: own-task rights and `create_dependencies`, but not
`edit_any_task`. -/
def roleDev : ProjectRole :=
  { id := 2, can_create_tasks := true, can_edit_any_task := false,
    can_delete_any_task := false, can_edit_own_task := true,
    can_delete_own_task := true, can_create_dependencies := true,
    can_delete_dependencies := false }

def uOwner : User := { id := 1, username := "olga", notification_settings := [] }

def uIvan : User := { id := 2, username := "ivan", notification_settings := [] }

def uDev : User := { id := 3, username := "dmitri", notification_settings := [] }

def projMain : Project := { id := 1, name := "Main" }

def memberOwner : ProjectMember :=
  { project := 1, user := 1, role := roleOwner, is_active := true }

def memberDev : ProjectMember :=
  { project := 1, user := 3, role := roleDev, is_active := true }

def taskA : Task :=
  { id := 1, project := 1, name := "A", status := 1, assignee := none,
    creator := 1, deadline := none }

def taskB : Task :=
  { id := 2, project := 1, name := "B", status := 1, assignee := some 2,
    creator := 1, deadline := none }

def taskC : Task :=
  { id := 3, project := 1, name := "C", status := 1, assignee := some 2,
    creator := 1, deadline := none }

def depAB : TaskDependency :=
  { id := 10, project := 1, source_task := 1, target_task := 2,
    dependency_type := "simple", created_by := 1 }

def depBC : TaskDependency :=
  { id := 11, project := 1, source_task := 2, target_task := 3,
    dependency_type := "simple", created_by := 1 }

def atNotifyAssignee : DependencyActionType :=
  { id := 1, code := "notify_assignee", requires_target_user := false,
    requires_template := true }

def atChangeStatus : DependencyActionType :=
  { id := 2, code := "change_status", requires_target_user := false,
    requires_template := false }

/-- A notify-assignee action on edge `A → B` whose template carries the
documented placeholder. -/
def actNotifyB : DependencyAction :=
  { id := 20, dependency := 10, action_type := 1, target_user := none,
    target_status := none, message_template := some "Ready: {task_name}",
    delay_minutes := 0, execute_order := 0, is_active := true }

/-- A change-status action on edge `A → B` moving `B` to `completed`. -/
def actCompleteB : DependencyAction :=
  { id := 20, dependency := 10, action_type := 2, target_user := none,
    target_status := some 3, message_template := none,
    delay_minutes := 0, execute_order := 0, is_active := true }

/-- A notify-assignee action on edge `B → C`. -/
def actNotifyC : DependencyAction :=
  { id := 21, dependency := 11, action_type := 1, target_user := none,
    target_status := none, message_template := some "go",
    delay_minutes := 0, execute_order := 0, is_active := true }

/-- World for the no-op scenario: one `todo` task, an owner actor. -/
def dbNoop : DB :=
  { statuses := stdStatuses, users := [uOwner], projects := [projMain],
    members := [memberOwner], tasks := [taskA], dependencies := [],
    action_types := [], actions := [], events := [], scheduled := [],
    next_id := 100 }

/-- A completed task created by the developer (reopening scenario). -/
def taskDone : Task :=
  { id := 1, project := 1, name := "T", status := 3, assignee := none,
    creator := 3, deadline := none }

def dbReopen : DB :=
  { statuses := stdStatuses, users := [uDev], projects := [projMain],
    members := [memberDev], tasks := [taskDone], dependencies := [],
    action_types := [], actions := [], events := [], scheduled := [],
    next_id := 100 }

/-- A task created by the owner with no assignee (permission-crash
scenario: the developer is neither creator nor assignee). -/
def taskNoAssignee : Task :=
  { id := 1, project := 1, name := "N", status := 1, assignee := none,
    creator := 1, deadline := none }

def taskTarget : Task :=
  { id := 2, project := 1, name := "M", status := 1, assignee := none,
    creator := 1, deadline := none }

def dbPerm : DB :=
  { statuses := stdStatuses, users := [uOwner, uDev], projects := [projMain],
    members := [memberDev], tasks := [taskNoAssignee, taskTarget],
    dependencies := [], action_types := [], actions := [], events := [],
    scheduled := [], next_id := 100 }

/-- World for the notify-on-complete scenario: edge `A → B`, one active
notify-assignee action with template `"Ready: {task_name}"`, `B` assigned
to Ivan. -/
def dbNotify : DB :=
  { statuses := stdStatuses, users := [uOwner, uIvan], projects := [projMain],
    members := [memberOwner], tasks := [taskA, taskB],
    dependencies := [depAB], action_types := [atNotifyAssignee],
    actions := [actNotifyB], events := [], scheduled := [], next_id := 100 }

/-- World for the cascade scenario: `A → B` with a change-status action
completing `B`, and `B → C` with a notify action. -/
def dbCascade : DB :=
  { statuses := stdStatuses, users := [uOwner, uIvan], projects := [projMain],
    members := [memberOwner], tasks := [taskA, taskB, taskC],
    dependencies := [depAB, depBC],
    action_types := [atNotifyAssignee, atChangeStatus],
    actions := [actCompleteB, actNotifyC], events := [], scheduled := [],
    next_id := 100 }

/-- World for the cycle scenario: tasks `A`, `B` with edge `A → B`. -/
def dbChain : DB :=
  { statuses := stdStatuses, users := [uOwner], projects := [projMain],
    members := [memberOwner], tasks := [taskA, taskB],
    dependencies := [depAB], action_types := [], actions := [], events := [],
    scheduled := [], next_id := 100 }

def task1Sched : Task :=
  { id := 1, project := 1, name := "S", status := 1, assignee := none,
    creator := 1, deadline := none }

/-- A due pending row whose task foreign key dangles (dispatch fails),
scheduled later but stored earlier in the table. -/
def rowLate : ScheduledAction :=
  { id := 1, project := 1, task := 99, action_type := "deadline_approaching",
    scheduled_for := 10, executed_at := none, payload := none,
    dependency_action := none, status := "pending" }

/-- A due pending row that dispatches fine, scheduled earlier but stored
later in the table. -/
def rowEarly : ScheduledAction :=
  { id := 2, project := 1, task := 1, action_type := "deadline_approaching",
    scheduled_for := 5, executed_at := none, payload := none,
    dependency_action := none, status := "pending" }

/-- World for the scheduler-tick scenario. -/
def dbSched : DB :=
  { statuses := stdStatuses, users := [uOwner], projects := [projMain],
    members := [], tasks := [task1Sched], dependencies := [],
    action_types := [], actions := [], events := [],
    scheduled := [rowLate, rowEarly], next_id := 100 }

/-- Scheduler scenario with a single due row whose dispatch fails. -/
def dbSchedOne : DB :=
  { statuses := stdStatuses, users := [uOwner], projects := [projMain],
    members := [], tasks := [task1Sched], dependencies := [],
    action_types := [], actions := [], events := [],
    scheduled := [rowLate], next_id := 100 }

end TaskFlow

namespace Graph

/-- A schema with an `int8` and a `uint64` field (range-check scenario). -/
def schemaX : EdgeSchema :=
  { fields := [{ name := "source", dtype := "uint16" },
               { name := "target", dtype := "uint16" },
               { name := "w8", dtype := "int8" },
               { name := "big", dtype := "uint64" }] }

def storageX : GraphStorage :=
  { schema := schemaX, source_field := "source", target_field := "target",
    buffer := [], num_edges := 0 }

end Graph

/-! ## Theorems -/

namespace TaskFlow

/-- The source-traversal loop of `check_task_readiness` answers
`some true` exactly when every incoming edge's source dereferences to a
task whose status is named `completed`. -/
theorem sourcesCompleted_eq_some_true (db : DB) (l : List TaskDependency) :
    sourcesCompleted db l = some true ↔
      ∀ dep ∈ l, sourceStatusName db dep = some "completed" := by
  induction l with
  | nil => simp [sourcesCompleted]
  | cons dep rest ih =>
    cases h1 : getTask db dep.source_task with
    | none =>
      constructor
      · intro hx; exfalso; simp [sourcesCompleted, h1] at hx
      · intro h; exfalso
        have := h dep (List.mem_cons_self dep rest)
        simp [sourceStatusName, h1] at this
    | some src =>
      cases h2 : getStatus db src.status with
      | none =>
        constructor
        · intro hx; exfalso; simp [sourcesCompleted, h1, h2] at hx
        · intro h; exfalso
          have := h dep (List.mem_cons_self dep rest)
          simp [sourceStatusName, h1, h2] at this
      | some st =>
        by_cases hc : st.name = "completed"
        · constructor
          · intro h dd hdd
            have hrest : sourcesCompleted db rest = some true := by
              simpa [sourcesCompleted, h1, h2, hc] using h
            rcases List.mem_cons.mp hdd with hh | hh
            · subst hh; simp [sourceStatusName, h1, h2, hc]
            · exact (ih.mp hrest) dd hh
          · intro h
            have hrest : sourcesCompleted db rest = some true :=
              ih.mpr (fun dd hdd => h dd (List.mem_cons_of_mem _ hdd))
            simp [sourcesCompleted, h1, h2, hc, hrest]
        · constructor
          · intro hx; exfalso; simp [sourcesCompleted, h1, h2, hc] at hx
          · intro h; exfalso
            have := h dep (List.mem_cons_self dep rest)
            simp [sourceStatusName, h1, h2] at this
            exact hc this

/-- C1: for every task `t`, `check_task_readiness(t)` returns `true` if
and only if `t`'s status name is `todo` and every source task of every
incoming dependency of `t` has status name `completed`; in particular a
`todo` task with no incoming dependencies is ready (the condition over an
empty edge list holds vacuously) and a task in any other status is never
ready. -/
theorem check_task_readiness_iff (db : DB) (task : Task) :
    check_task_readiness db task = some true ↔
      ((getStatus db task.status).map TaskStatus.name = some "todo" ∧
       ∀ dep ∈ incomingDeps db task,
         sourceStatusName db dep = some "completed") := by
  cases h : getStatus db task.status with
  | none =>
    constructor
    · intro hx; exfalso; simp [check_task_readiness, h] at hx
    · rintro ⟨hx, -⟩; exfalso; simp at hx
  | some st =>
    by_cases ht : st.name = "todo"
    · have hred : check_task_readiness db task =
          sourcesCompleted db (incomingDeps db task) := by
        simp [check_task_readiness, h, ht]
      rw [hred, sourcesCompleted_eq_some_true]
      simp [ht]
    · constructor
      · intro hx; exfalso; simp [check_task_readiness, h, ht] at hx
      · rintro ⟨hx, -⟩; exfalso; simp at hx; exact ht hx

/-- C8: `change_task_status` with the task's current status equal to the
requested one is a complete no-op: the returned record has
`status_changed = false` and an empty `actions_executed` list, and the
database and effect trace are returned unchanged — no event row, no task
write, no dispatch, no scheduling. -/
theorem change_task_status_same_status_noop (db : DB) (trace : List Effect)
    (task : Task) (S : String) (u : User) (now : Nat)
    (newst oldst : TaskStatus)
    (hperm : can_edit_task db u task = true)
    (hnew : get_status_by_name db S = some newst)
    (hold : getStatus db task.status = some oldst)
    (hsame : oldst.id = newst.id) :
    change_task_status ⟨db, trace⟩ task S u now =
      (⟨db, trace⟩,
       .ok { task := task, status_changed := false, old_status := oldst,
             new_status := newst, actions_executed := [] }) := by
  simp [change_task_status, hperm, hnew, hold, hsame]

/-- Witness for `change_task_status_same_status_noop`: in `dbNoop` the
owner re-requests the current `todo` status of task `A`. -/
theorem change_task_status_same_status_noop_witness :
    change_task_status ⟨dbNoop, []⟩ taskA "todo" uOwner 0 =
      (⟨dbNoop, []⟩,
       .ok { task := taskA, status_changed := false, old_status := stTodo,
             new_status := stTodo, actions_executed := [] }) :=
  change_task_status_same_status_noop dbNoop [] taskA "todo" uOwner 0
    stTodo stTodo rfl rfl rfl rfl

/-- C5 counterexample: in `dbReopen` the developer (a role without
`edit_any_task`) is the creator of the completed task `T`, so the claim
predicts a Forbidden failure with the status unchanged on reopening; the
code instead performs the final → non-final transition: the call returns
`ok` with `status_changed = true` and the stored task now has status
`todo`. -/
theorem change_task_status_reopen_counterexample :
    roleDev.can_edit_any_task = false ∧
    can_edit_task dbReopen uDev taskDone = true ∧
    stCompleted.is_final = true ∧ stTodo.is_final = false ∧
    (change_task_status ⟨dbReopen, []⟩ taskDone "todo" uDev 0).2 =
      .ok { task := { taskDone with status := stTodo.id },
            status_changed := true, old_status := stCompleted,
            new_status := stTodo, actions_executed := [] } ∧
    getTask (change_task_status ⟨dbReopen, []⟩ taskDone "todo" uDev 0).1.db
        taskDone.id = some { taskDone with status := stTodo.id } :=
  ⟨rfl, rfl, rfl, rfl, rfl, rfl⟩

/-- C5 (amended): for every actor who passes the `can_edit_task` check,
`change_task_status` performs a final → non-final transition without any
further permission requirement: the call succeeds, the new status is
written and the event is logged (there is no `edit_any_task` gate on
reopening). -/
theorem change_task_status_reopen_allowed (db : DB) (trace : List Effect)
    (task : Task) (S : String) (u : User) (now : Nat)
    (newst oldst : TaskStatus)
    (hperm : can_edit_task db u task = true)
    (hnew : get_status_by_name db S = some newst)
    (hold : getStatus db task.status = some oldst)
    (hdiff : oldst.id ≠ newst.id)
    (hfinal : oldst.is_final = true) :
    change_task_status ⟨db, trace⟩ task S u now =
      (⟨logEvent (saveTask db { task with status := newst.id }) task.project
          task.id u.id "status_changed" (some oldst.name) (some newst.name),
        trace ++ [.statusWrite task.id newst.id,
                  .logged task.id "status_changed"]⟩,
       .ok { task := { task with status := newst.id }, status_changed := true,
             old_status := oldst, new_status := newst,
             actions_executed := [] }) := by
  simp [change_task_status, hperm, hnew, hold, hfinal, World.emit,
    World.setDB, beq_eq_false_iff_ne.mpr hdiff]

/-- Witness for `change_task_status_reopen_allowed`: the developer
reopens the completed task of `dbReopen`. -/
theorem change_task_status_reopen_allowed_witness :
    change_task_status ⟨dbReopen, []⟩ taskDone "todo" uDev 0 =
      (⟨logEvent (saveTask dbReopen { taskDone with status := stTodo.id })
          taskDone.project taskDone.id uDev.id "status_changed"
          (some stCompleted.name) (some stTodo.name),
        [] ++ [.statusWrite taskDone.id stTodo.id,
               .logged taskDone.id "status_changed"]⟩,
       .ok { task := { taskDone with status := stTodo.id },
             status_changed := true, old_status := stCompleted,
             new_status := stTodo, actions_executed := [] }) :=
  change_task_status_reopen_allowed dbReopen [] taskDone "todo" uDev 0
    stTodo stCompleted rfl rfl rfl (by decide) rfl

/-- C10: when a role grants `create_dependencies` but not
`edit_any_task`, and the source task's creator is someone else and the
task has no assignee, `can_create_dependencies` raises `AttributeError`
(dereferencing `None.id`) instead of returning a deny result, and
`create_dependency` for such a caller propagates the crash rather than
failing with a Forbidden error. -/
theorem can_create_dependencies_attribute_error (db : DB) (u : User)
    (task : Task) (role : ProjectRole)
    (hrole : get_user_role_in_project db u.id task.project = some role)
    (hcd : role.can_create_dependencies = true)
    (hany : role.can_edit_any_task = false)
    (hcreator : task.creator ≠ u.id)
    (hassignee : task.assignee = none) :
    can_create_dependencies db u task = .error .attributeError ∧
    ∀ (trace : List Effect) (tgt : Task) (dtype : String) (now : Nat),
      create_dependency ⟨db, trace⟩ task tgt u dtype now =
        (⟨db, trace⟩, .error .attributeError) := by
  have h1 : can_create_dependencies db u task = .error .attributeError := by
    simp [can_create_dependencies, hrole, hcd, hany, hassignee,
      beq_eq_false_iff_ne.mpr hcreator]
  refine ⟨h1, fun trace tgt dtype now => ?_⟩
  simp [create_dependency, h1]

/-- Witness for `can_create_dependencies_attribute_error`: in `dbPerm`
the developer holds `create_dependencies` without `edit_any_task`, the
source task was created by the owner and has no assignee. -/
theorem can_create_dependencies_attribute_error_witness :
    can_create_dependencies dbPerm uDev taskNoAssignee =
      .error .attributeError ∧
    create_dependency ⟨dbPerm, []⟩ taskNoAssignee taskTarget uDev "simple" 0 =
      (⟨dbPerm, []⟩, .error .attributeError) :=
  ⟨(can_create_dependencies_attribute_error dbPerm uDev taskNoAssignee
      roleDev rfl rfl rfl (by decide) rfl).1,
   (can_create_dependencies_attribute_error dbPerm uDev taskNoAssignee
      roleDev rfl rfl rfl (by decide) rfl).2 [] taskTarget "simple" 0⟩

/-- C4 counterexample: in `dbCascade`, completing `A` fires the
change-status action on `A → B`, which does move `B` from the non-final
`todo` to the final `completed` status — but `B`'s own outgoing edge
`B → C` is never evaluated and no notification is dispatched: the code
updates the target directly instead of transitioning it through the
engine, so no depth-first cascade occurs. -/
theorem change_status_action_no_cascade_counterexample :
    stTodo.is_final = false ∧ stCompleted.is_final = true ∧
    getTask (change_task_status ⟨dbCascade, []⟩ taskA "completed" uOwner 0).1.db
        taskB.id = some { taskB with status := stCompleted.id } ∧
    Effect.evalEdge depBC.id ∉
      (change_task_status ⟨dbCascade, []⟩ taskA "completed" uOwner 0).1.trace ∧
    notifications
      (change_task_status ⟨dbCascade, []⟩ taskA "completed" uOwner 0).1.trace
      = [] := by
  refine ⟨rfl, rfl, rfl, ?_, rfl⟩
  decide

/-- C4 (amended): an active `change_status` dependency action updates the
target task's status with a direct row write and one event log; it does
not go through the engine's status-change operation, and it evaluates no
further dependency actions — the trace gains no evaluator invocation —
even when the target thereby moves from a non-final to a final status. -/
theorem execute_change_status_direct (w : World) (action : DependencyAction)
    (atype : DependencyActionType) (tsId : Nat) (ts : TaskStatus)
    (dep : TaskDependency) (target : Task) (old : TaskStatus)
    (trig : String) (u : User)
    (hat : getActionType w.db action.action_type = some atype)
    (hcode : atype.code = "change_status")
    (hts : action.target_status = some tsId)
    (hstatus : getStatus w.db tsId = some ts)
    (hdep : getDependency w.db action.dependency = some dep)
    (htask : getTask w.db dep.target_task = some target)
    (hold : getStatus w.db target.status = some old) :
    execute_single_action w action trig u =
      (⟨logEvent (saveTask w.db { target with status := ts.id })
          target.project target.id u.id "status_changed"
          (some old.name) (some ts.name),
        w.trace ++ [.statusWrite target.id ts.id,
                    .logged target.id "status_changed"]⟩,
       .ok { action_id := action.id, type_code := atype.code,
             status := "executed", target_user := none,
             new_status := some ts.name, scheduled_for := none,
             error := none }) ∧
    ∀ d, Effect.evalEdge d ∈
        (execute_single_action w action trig u).1.trace ↔
      Effect.evalEdge d ∈ w.trace := by
  have hb1 : (("change_status" : String) == "notify_assignee") = false := rfl
  have hb2 : (("change_status" : String) == "notify_creator") = false := rfl
  have hb3 : (("change_status" : String) == "notify_custom") = false := rfl
  have hb4 : (("change_status" : String) == "change_status") = true := rfl
  have hmain : execute_single_action w action trig u =
      (⟨logEvent (saveTask w.db { target with status := ts.id })
          target.project target.id u.id "status_changed"
          (some old.name) (some ts.name),
        w.trace ++ [.statusWrite target.id ts.id,
                    .logged target.id "status_changed"]⟩,
       .ok { action_id := action.id, type_code := atype.code,
             status := "executed", target_user := none,
             new_status := some ts.name, scheduled_for := none,
             error := none }) := by
    simp [execute_single_action, hat, hcode, hb1, hb2, hb3, hb4, hts,
      hstatus, hdep, htask, hold, World.emit, World.setDB]
  refine ⟨hmain, fun d => ?_⟩
  rw [hmain]
  simp

/-- Witness for `execute_change_status_direct`: the change-status action
of `dbCascade` completes `B` directly. -/
theorem execute_change_status_direct_witness :
    execute_single_action ⟨dbCascade, []⟩ actCompleteB "task_completed" uOwner =
      (⟨logEvent (saveTask dbCascade { taskB with status := stCompleted.id })
          taskB.project taskB.id uOwner.id "status_changed"
          (some stTodo.name) (some stCompleted.name),
        [] ++ [.statusWrite taskB.id stCompleted.id,
               .logged taskB.id "status_changed"]⟩,
       .ok { action_id := actCompleteB.id, type_code := atChangeStatus.code,
             status := "executed", target_user := none,
             new_status := some stCompleted.name, scheduled_for := none,
             error := none }) :=
  (execute_change_status_direct ⟨dbCascade, []⟩ actCompleteB atChangeStatus
    3 stCompleted depAB taskB stTodo "task_completed" uOwner
    rfl rfl rfl rfl rfl rfl rfl).1

/-- C6 counterexample: in `dbNotify` (edge `A → B`, active notify action
with template `"Ready: {task_name}"`, `B` named `B` and assigned to
Ivan), completing `A` dispatches exactly one notification — whose message
is the raw template text, not the substituted `"Ready: B"` that the
claimed pure string-replacement of `task_name` would produce. -/
theorem notify_template_counterexample :
    notifications
        (change_task_status ⟨dbNotify, []⟩ taskA "completed" uOwner 0).1.trace =
      [(uIvan.id, "task_ready",
        { task_id := taskB.id, task_name := taskB.name,
          project_name := projMain.name,
          message := some "Ready: {task_name}",
          deadline := none, hours_left := none })] ∧
    substituteTemplate "Ready: {task_name}" taskB.name projMain.name
        uOwner.username = "Ready: B" ∧
    some "Ready: {task_name}" ≠ some ("Ready: B") := by
  refine ⟨rfl, by decide, by decide⟩

/-- C6 (amended): no template substitution is performed anywhere on the
notification path: a `notify_assignee` action with a non-empty template
dispatches a payload whose message is the template string verbatim
(placeholders such as `{task_name}` are passed through literally; an
absent or empty template falls back to a default built from the target's
name). -/
theorem execute_notify_assignee_raw_template
    (w : World) (action : DependencyAction) (atype : DependencyActionType)
    (dep : TaskDependency) (target : Task) (aid : Nat) (assignee : User)
    (proj : Project) (t : String) (trig : String) (u : User)
    (hat : getActionType w.db action.action_type = some atype)
    (hcode : atype.code = "notify_assignee")
    (hdep : getDependency w.db action.dependency = some dep)
    (htask : getTask w.db dep.target_task = some target)
    (hassignee : target.assignee = some aid)
    (huser : getUser w.db aid = some assignee)
    (hproj : getProject w.db target.project = some proj)
    (ht : action.message_template = some t)
    (hne : (t == "") = false)
    (hallow : assignee.settingsGet "dependency_ready" = true) :
    execute_single_action w action trig u =
      (w.emit (.notify assignee.id "task_ready"
        { task_id := target.id, task_name := target.name,
          project_name := proj.name, message := some t,
          deadline := none, hours_left := none }),
       .ok { action_id := action.id, type_code := atype.code,
             status := "executed", target_user := some assignee.username,
             new_status := none, scheduled_for := none, error := none }) := by
  have hb : (("notify_assignee" : String) == "notify_assignee") = true := rfl
  have hk1 : (("task_ready" : String) == "task_ready") = true := rfl
  have hk2 : (("task_ready" : String) == "task_completed") = false := rfl
  have hk3 : (("task_ready" : String) == "task_assigned") = false := rfl
  simp [execute_single_action, hat, hcode, hb, hdep, htask, hassignee,
    huser, hproj, ht, hne, templateOr, send_task_notification, hallow,
    hk1, hk2, hk3]

/-- Witness for `execute_notify_assignee_raw_template`: the notify action
of `dbNotify` sends its template text unchanged. -/
theorem execute_notify_assignee_raw_template_witness :
    execute_single_action ⟨dbNotify, []⟩ actNotifyB "task_completed" uOwner =
      (World.emit ⟨dbNotify, []⟩ (.notify uIvan.id "task_ready"
        { task_id := taskB.id, task_name := taskB.name,
          project_name := projMain.name,
          message := some "Ready: {task_name}",
          deadline := none, hours_left := none }),
       .ok { action_id := actNotifyB.id, type_code := atNotifyAssignee.code,
             status := "executed", target_user := some uIvan.username,
             new_status := none, scheduled_for := none, error := none }) :=
  execute_notify_assignee_raw_template ⟨dbNotify, []⟩ actNotifyB
    atNotifyAssignee depAB taskB 2 uIvan projMain "Ready: {task_name}"
    "task_completed" uOwner rfl rfl rfl rfl rfl rfl rfl rfl rfl rfl

end TaskFlow

namespace Graph

/-- C9 counterexample: on a schema with an `int8` field `w8` and a
`uint64` field `big`, `add_edge` rejects the `int8`-representable value
`-1` and the `uint64`-representable value `70000` with range errors: the
check bounds every field by `0 .. get_max_value`, where `get_max_value`
knows no negative bound and maps 64-bit dtypes to the `65535` fallback. -/
theorem add_edge_range_counterexample :
    representable "int8" (-1) ∧
    add_edge storageX [("source", 1), ("target", 2), ("w8", -1), ("big", 0)] =
      .error (.outOfRange "w8") ∧
    representable "uint64" 70000 ∧
    add_edge storageX [("source", 1), ("target", 2), ("w8", 0), ("big", 70000)] =
      .error (.outOfRange "big") := by
  refine ⟨by decide, rfl, by decide, rfl⟩

/-- C9 (amended): with every schema field supplied, `add_edge` succeeds
exactly when every supplied schema-field value `v` satisfies
`0 ≤ v ≤ get_max_value` (so negative values are always rejected, and
`uint64`/`int64` values above the `65535` fallback are rejected even
though representable); on success the call returns the previous edge
count as the index and appends exactly one packed record; a call missing
any schema field fails with a missing-field error. On any failure the
returned value carries no storage: the rejections happen before the
buffer is touched. -/
theorem add_edge_checks (g : GraphStorage) (fields : List (String × Int)) :
    ((∀ f ∈ g.schema.fields,
        (fields.find? (fun kv => kv.fst == f.name)).isSome) →
      ((∃ g2 i, add_edge g fields = .ok (g2, i)) ↔
        ∀ kv ∈ fields,
          (g.schema.fields.find? (fun f => f.name == kv.fst)).isSome →
            0 ≤ kv.snd ∧ kv.snd ≤ g.schema.get_max_value kv.fst)) ∧
    (∀ g2 i, add_edge g fields = .ok (g2, i) →
        i = g.num_edges ∧ g2.num_edges = g.num_edges + 1 ∧
        g2.buffer = g.buffer ++ packRecord g.schema fields) ∧
    ((∃ f ∈ g.schema.fields,
        fields.find? (fun kv => kv.fst == f.name) = none) →
      ∃ name, add_edge g fields = .error (.missingField name)) := by
  refine ⟨?_, ?_, ?_⟩
  · intro hcomplete
    have h1 : g.schema.fields.find? (fun f =>
        (fields.find? (fun kv => kv.fst == f.name)).isNone) = none := by
      rw [List.find?_eq_none]
      intro f hf
      cases hx : fields.find? (fun kv => kv.fst == f.name) with
      | none =>
        have := hcomplete f hf
        rw [hx] at this
        simp at this
      | some v => simp
    cases h2 : fields.find? (fun kv =>
        (g.schema.fields.find? (fun f => f.name == kv.fst)).isSome &&
        (decide (kv.snd < 0) || decide (kv.snd > g.schema.get_max_value kv.fst))) with
    | some kv =>
      have hmem := List.mem_of_find?_eq_some h2
      have hbad := List.find?_some h2
      have herr : add_edge g fields = .error (.outOfRange kv.fst) := by
        simp [add_edge, h1, h2]
      constructor
      · rintro ⟨g2, i, hok⟩
        rw [herr] at hok
        cases hok
      · intro hall
        simp only [Bool.and_eq_true, Bool.or_eq_true, decide_eq_true_eq] at hbad
        obtain ⟨hin, hrange⟩ := hbad
        have hb := hall kv hmem hin
        rcases hrange with h | h
        · omega
        · omega
    | none =>
      have hok : add_edge g fields =
          .ok ({ g with buffer := g.buffer ++ packRecord g.schema fields,
                        num_edges := g.num_edges + 1 }, g.num_edges) := by
        simp [add_edge, h1, h2]
      constructor
      · intro _ kv hkv hin
        have hgood := List.find?_eq_none.mp h2 kv hkv
        simp only [Bool.and_eq_true, Bool.or_eq_true, decide_eq_true_eq, hin,
          true_and, not_or, not_lt] at hgood
        exact ⟨hgood.1, hgood.2⟩
      · intro _
        exact ⟨_, _, hok⟩
  · intro g2 i hok
    simp only [add_edge] at hok
    split at hok
    · cases hok
    · split at hok
      · cases hok
      · simp only [Except.ok.injEq, Prod.mk.injEq] at hok
        obtain ⟨hg2, hi⟩ := hok
        subst hg2
        exact ⟨hi.symm, rfl, rfl⟩
  · rintro ⟨f, hf, hnone⟩
    have hs : (g.schema.fields.find? (fun f =>
        (fields.find? (fun kv => kv.fst == f.name)).isNone)).isSome := by
      rw [List.find?_isSome]
      exact ⟨f, hf, by simp [hnone]⟩
    obtain ⟨f2, hf2⟩ := Option.isSome_iff_exists.mp hs
    exact ⟨f2.name, by simp [add_edge, hf2]⟩

/-- Witness for `add_edge_checks`: on `storageX` an in-bounds call
succeeds and a call missing the `big` field fails with a missing-field
error. -/
theorem add_edge_checks_witness :
    (∃ g2 i, add_edge storageX
        [("source", 1), ("target", 2), ("w8", 5), ("big", 7)] = .ok (g2, i)) ∧
    (∃ name, add_edge storageX
        [("source", 1), ("target", 2), ("w8", 5)] =
      .error (.missingField name)) :=
  ⟨((add_edge_checks storageX
      [("source", 1), ("target", 2), ("w8", 5), ("big", 7)]).1
        (by decide)).mpr (by decide),
   (add_edge_checks storageX [("source", 1), ("target", 2), ("w8", 5)]).2.2
     ⟨{ name := "big", dtype := "uint64" }, by decide, by decide⟩⟩

end Graph

namespace TaskFlow

/-- Replacing a row by primary key leaves the id column of the scheduled
table pointwise unchanged. -/
theorem scheduled_ids_save (l : List ScheduledAction) (r : ScheduledAction) :
    (l.map (fun x => if x.id == r.id then r else x)).map (fun x => x.id) =
      l.map (fun x => x.id) := by
  induction l with
  | nil => rfl
  | cons a rest ih =>
    simp only [List.map_cons]
    by_cases h : a.id = r.id
    · rw [if_pos (beq_iff_eq.mpr h), ih, h]
    · rw [if_neg (by simp [h]), ih]

/-- After `saveScheduled`, looking the row's own id up yields the saved
value, provided a row with that id was present. -/
theorem find_save_self (l : List ScheduledAction) (r : ScheduledAction)
    (h : ∃ q ∈ l, q.id = r.id) :
    (l.map (fun x => if x.id == r.id then r else x)).find?
        (fun x => x.id == r.id) = some r := by
  induction l with
  | nil => simp at h
  | cons a rest ih =>
    simp only [List.map_cons]
    by_cases ha : a.id = r.id
    · rw [if_pos (beq_iff_eq.mpr ha)]
      exact List.find?_cons_of_pos _ (beq_self_eq_true r.id)
    · rw [if_neg (by simp [ha])]
      rw [List.find?_cons_of_neg _ (by simp [ha])]
      apply ih
      rcases h with ⟨q, hq, hid⟩
      rcases List.mem_cons.mp hq with hq | hq
      · exact absurd (hq ▸ hid) ha
      · exact ⟨q, hq, hid⟩

/-- `saveScheduled` does not disturb lookups of other ids. -/
theorem find_save_other (l : List ScheduledAction) (r : ScheduledAction)
    (x : Nat) (hx : x ≠ r.id) :
    (l.map (fun y => if y.id == r.id then r else y)).find?
        (fun y => y.id == x) = l.find? (fun y => y.id == x) := by
  have hrx : r.id ≠ x := fun hh => hx hh.symm
  induction l with
  | nil => rfl
  | cons a rest ih =>
    simp only [List.map_cons]
    by_cases h : a.id = r.id
    · rw [if_pos (beq_iff_eq.mpr h)]
      have e1 : List.find? (fun y => y.id == x)
          (r :: rest.map (fun y => if y.id == r.id then r else y)) =
          List.find? (fun y => y.id == x)
            (rest.map (fun y => if y.id == r.id then r else y)) :=
        List.find?_cons_of_neg _ (by simp [hrx])
      have e2 : List.find? (fun y => y.id == x) (a :: rest) =
          List.find? (fun y => y.id == x) rest :=
        List.find?_cons_of_neg _ (by simp [h, hrx])
      rw [e1, e2, ih]
    · rw [if_neg (by simp [h])]
      by_cases hax : a.id = x
      · have e1 : List.find? (fun y => y.id == x)
            (a :: rest.map (fun y => if y.id == r.id then r else y)) = some a :=
          List.find?_cons_of_pos _ (beq_iff_eq.mpr hax)
        have e2 : List.find? (fun y => y.id == x) (a :: rest) = some a :=
          List.find?_cons_of_pos _ (beq_iff_eq.mpr hax)
        rw [e1, e2]
      · have e1 : List.find? (fun y => y.id == x)
            (a :: rest.map (fun y => if y.id == r.id then r else y)) =
            List.find? (fun y => y.id == x)
              (rest.map (fun y => if y.id == r.id then r else y)) :=
          List.find?_cons_of_neg _ (by simp [hax])
        have e2 : List.find? (fun y => y.id == x) (a :: rest) =
            List.find? (fun y => y.id == x) rest :=
          List.find?_cons_of_neg _ (by simp [hax])
        rw [e1, e2, ih]

/-- Notification gating never touches the database. -/
theorem send_task_notification_db (w : World) (u : User) (ty : String)
    (data : NotifData) : (send_task_notification w u ty data).1.db = w.db := by
  unfold send_task_notification
  repeat' split
  all_goals simp [World.emit]

/-- `execute_single_action` never touches the scheduled-action table. -/
theorem execute_single_action_scheduled (w : World) (a : DependencyAction)
    (t : String) (u : User) :
    (execute_single_action w a t u).1.db.scheduled = w.db.scheduled := by
  unfold execute_single_action
  repeat' split
  all_goals
    simp [World.emit, World.setDB, saveTask, logEvent,
      send_task_notification_db]

end TaskFlow

namespace TaskFlow

/-- `saveScheduled` leaves the id column unchanged. -/
theorem saveScheduled_ids (db : DB) (r : ScheduledAction) :
    (saveScheduled db r).scheduled.map (fun x => x.id) =
      db.scheduled.map (fun x => x.id) :=
  scheduled_ids_save _ _

/-- Looking up the saved row's id after `saveScheduled` yields the saved
value (when a row with that id was present). -/
theorem getScheduled_save_self (db : DB) (r : ScheduledAction)
    (h : r.id ∈ db.scheduled.map (fun x => x.id)) :
    getScheduled (saveScheduled db r) r.id = some r := by
  apply find_save_self
  rcases List.mem_map.mp h with ⟨q, hq, hid⟩
  exact ⟨q, hq, hid⟩

/-- The entry the worker reports for a row carries the row's id. -/
theorem processOne_id (w : World) (now : Nat) (r : ScheduledAction) :
    (processOne w now r).2.id = r.id := by
  unfold processOne
  dsimp only
  repeat' split
  all_goals rfl

/-- One worker-loop iteration either reports `failed` — and then the row
is saved with status `failed` and its `executed_at` untouched — or
reports `completed` — and then the saved row has `executed_at = now`. -/
theorem processOne_row (w : World) (now : Nat) (r : ScheduledAction)
    (hpres : r.id ∈ w.db.scheduled.map (fun x => x.id)) :
    ((processOne w now r).2 =
        { id := r.id, type_code := r.action_type, status := "failed" } ∧
      getScheduled (processOne w now r).1.db r.id =
        some { r with status := "failed" }) ∨
    ((processOne w now r).2 =
        { id := r.id, type_code := r.action_type, status := "completed" } ∧
      ∃ q, getScheduled (processOne w now r).1.db r.id = some q ∧
        q.executed_at = some now) := by
  unfold processOne
  dsimp only
  repeat' split
  all_goals first
  | (left
     refine ⟨rfl, ?_⟩
     apply getScheduled_save_self
     simp only [World.setDB, send_task_notification_db,
       execute_single_action_scheduled, saveScheduled_ids]
     exact hpres)
  | (right
     refine ⟨rfl, ?_⟩
     exact ⟨_, getScheduled_save_self _ _ (by
       simp only [World.setDB, send_task_notification_db,
         execute_single_action_scheduled, saveScheduled_ids]
       exact hpres), rfl⟩)

/-- The worker loop reports one entry per selected row, in the order the
rows were selected, carrying the rows' ids. -/
theorem processLoop_ids (now : Nat) :
    ∀ (l : List ScheduledAction) (w : World) (acc : List ProcessedEntry),
      (processLoop now w l acc).2.map (fun e => e.id) =
        acc.map (fun e => e.id) ++ l.map (fun x => x.id) := by
  intro l
  induction l with
  | nil => intro w acc; simp [processLoop]
  | cons r rest ih =>
    intro w acc
    simp only [processLoop]
    rw [ih]
    simp [processOne_id]

/-- The worker tick selects at most 100 rows. -/
theorem dueRows_length (db : DB) (now : Nat) :
    (dueRows db now).length ≤ 100 := by
  simp only [dueRows, List.length_take]
  exact min_le_left _ _

/-- A selected row is a row of the table. -/
theorem dueRows_mem (db : DB) (now : Nat) (r : ScheduledAction)
    (h : r ∈ dueRows db now) : r ∈ db.scheduled :=
  (List.filter_sublist _).subset ((List.take_sublist _ _).subset h)

/-- C7 (amended): a worker tick selects at most 100 due pending rows in
table order (the query has no `ORDER BY scheduled_for`) and reports one
entry per selected row, in that order. When the tick selects exactly one
row, the outcome is: on a dispatch failure the row is saved with status
`failed` and its `executed_at` left untouched (still `NULL` for a fresh
pending row), and on success the saved row has `executed_at = now`. -/
theorem process_scheduled_actions_spec (db : DB) (trace : List Effect)
    (now : Nat) :
    ((process_scheduled_actions ⟨db, trace⟩ now).2.map (fun e => e.id) =
      (dueRows db now).map (fun x => x.id)) ∧
    (dueRows db now).length ≤ 100 ∧
    (∀ r, dueRows db now = [r] →
      (((process_scheduled_actions ⟨db, trace⟩ now).2 =
          [{ id := r.id, type_code := r.action_type, status := "failed" }] ∧
        getScheduled (process_scheduled_actions ⟨db, trace⟩ now).1.db r.id =
          some { r with status := "failed" }) ∨
       ((process_scheduled_actions ⟨db, trace⟩ now).2 =
          [{ id := r.id, type_code := r.action_type, status := "completed" }] ∧
        ∃ q,
          getScheduled (process_scheduled_actions ⟨db, trace⟩ now).1.db r.id =
            some q ∧ q.executed_at = some now))) := by
  refine ⟨?_, dueRows_length db now, ?_⟩
  · have h := processLoop_ids now (dueRows db now) ⟨db, trace⟩ []
    simpa [process_scheduled_actions] using h
  · intro r hr
    have hpres : r.id ∈ db.scheduled.map (fun x => x.id) :=
      List.mem_map_of_mem _ (dueRows_mem db now r (by rw [hr]; exact List.mem_singleton_self r))
    have hrow := processOne_row ⟨db, trace⟩ now r hpres
    have hproc : process_scheduled_actions ⟨db, trace⟩ now =
        ((processOne ⟨db, trace⟩ now r).1, [(processOne ⟨db, trace⟩ now r).2]) := by
      simp [process_scheduled_actions, hr, processLoop]
    rcases hrow with ⟨he, hdb⟩ | ⟨he, hdb⟩
    · left
      rw [hproc]
      exact ⟨by rw [he], hdb⟩
    · right
      rw [hproc]
      exact ⟨by rw [he], hdb⟩

/-- Witness for `process_scheduled_actions_spec`: the single due row of
`dbSchedOne` points at a missing task, so its dispatch fails and the row
keeps a `NULL` `executed_at`. -/
theorem process_scheduled_actions_spec_witness :
    ((process_scheduled_actions ⟨dbSchedOne, []⟩ 20).2.map (fun e => e.id) =
      (dueRows dbSchedOne 20).map (fun x => x.id)) ∧
    (((process_scheduled_actions ⟨dbSchedOne, []⟩ 20).2 =
        [{ id := rowLate.id, type_code := rowLate.action_type,
           status := "failed" }] ∧
      getScheduled (process_scheduled_actions ⟨dbSchedOne, []⟩ 20).1.db
          rowLate.id = some { rowLate with status := "failed" }) ∨
     (((process_scheduled_actions ⟨dbSchedOne, []⟩ 20).2 =
        [{ id := rowLate.id, type_code := rowLate.action_type,
           status := "completed" }]) ∧
      ∃ q, getScheduled (process_scheduled_actions ⟨dbSchedOne, []⟩ 20).1.db
          rowLate.id = some q ∧ q.executed_at = some 20)) :=
  ⟨(process_scheduled_actions_spec dbSchedOne [] 20).1,
   (process_scheduled_actions_spec dbSchedOne [] 20).2.2 rowLate rfl⟩

/-- C7 counterexample: in `dbSched` the table holds the later-scheduled
row first; the tick processes it first (selection is in table order, not
ascending `scheduled_for`), its dispatch fails (dangling task id), and
the failed row is left with `executed_at = NULL` — the claim requires
ascending order and a non-null `executed_at` in the failed outcome. -/
theorem process_scheduled_order_counterexample :
    rowLate.scheduled_for > rowEarly.scheduled_for ∧
    (process_scheduled_actions ⟨dbSched, []⟩ 20).2 =
      [{ id := rowLate.id, type_code := "deadline_approaching",
         status := "failed" },
       { id := rowEarly.id, type_code := "deadline_approaching",
         status := "completed" }] ∧
    getScheduled (process_scheduled_actions ⟨dbSched, []⟩ 20).1.db
        rowLate.id = some { rowLate with status := "failed" } ∧
    ({ rowLate with status := "failed" } : ScheduledAction).executed_at =
      none := by
  refine ⟨by decide, rfl, rfl, rfl⟩

end TaskFlow

namespace TaskFlow

/-- Event logging does not touch the task table. -/
theorem getTask_logEvent (db : DB) (p t u : Nat) (ty : String)
    (o n : Option String) (x : Nat) :
    getTask (logEvent db p t u ty o n) x = getTask db x := rfl

/-- Saving a task preserves which task ids resolve. -/
theorem getTask_saveTask_isSome (db : DB) (t : Task) (x : Nat) :
    (getTask (saveTask db t) x).isSome = (getTask db x).isSome := by
  unfold getTask saveTask
  induction db.tasks with
  | nil => rfl
  | cons a rest ih =>
    simp only [List.map_cons]
    by_cases h : a.id = t.id
    · by_cases hx : t.id = x
      · have e1 : List.find? (fun y => y.id == x)
            (t :: rest.map (fun y => if y.id == t.id then t else y)) = some t :=
          List.find?_cons_of_pos _ (beq_iff_eq.mpr hx)
        have e2 : List.find? (fun y => y.id == x) (a :: rest) = some a :=
          List.find?_cons_of_pos _ (beq_iff_eq.mpr (h.trans hx))
        rw [if_pos (beq_iff_eq.mpr h), e1, e2]
        rfl
      · have e1 : List.find? (fun y => y.id == x)
            (t :: rest.map (fun y => if y.id == t.id then t else y)) =
            List.find? (fun y => y.id == x)
              (rest.map (fun y => if y.id == t.id then t else y)) :=
          List.find?_cons_of_neg _ (by simp [hx])
        have e2 : List.find? (fun y => y.id == x) (a :: rest) =
            List.find? (fun y => y.id == x) rest :=
          List.find?_cons_of_neg _ (by simp [h, hx])
        rw [if_pos (beq_iff_eq.mpr h), e1, e2, ih]
    · by_cases hx : a.id = x
      · have e1 : List.find? (fun y => y.id == x)
            (a :: rest.map (fun y => if y.id == t.id then t else y)) = some a :=
          List.find?_cons_of_pos _ (beq_iff_eq.mpr hx)
        have e2 : List.find? (fun y => y.id == x) (a :: rest) = some a :=
          List.find?_cons_of_pos _ (beq_iff_eq.mpr hx)
        rw [if_neg (by simp [h]), e1, e2]
      · have e1 : List.find? (fun y => y.id == x)
            (a :: rest.map (fun y => if y.id == t.id then t else y)) =
            List.find? (fun y => y.id == x)
              (rest.map (fun y => if y.id == t.id then t else y)) :=
          List.find?_cons_of_neg _ (by simp [hx])
        have e2 : List.find? (fun y => y.id == x) (a :: rest) =
            List.find? (fun y => y.id == x) rest :=
          List.find?_cons_of_neg _ (by simp [hx])
        rw [if_neg (by simp [h]), e1, e2, ih]

/-- Notification dispatch only appends to the trace. -/
theorem send_task_notification_traceExt (w : World) (u : User) (ty : String)
    (data : NotifData) :
    w.trace <+: (send_task_notification w u ty data).1.trace := by
  unfold send_task_notification
  repeat' split
  all_goals first
    | exact List.prefix_refl _
    | exact List.prefix_append _ _

/-- Notification dispatch never records an evaluator invocation. -/
theorem send_task_notification_evalEdge (w : World) (u : User) (ty : String)
    (data : NotifData) (d : Nat) :
    Effect.evalEdge d ∈ (send_task_notification w u ty data).1.trace ↔
      Effect.evalEdge d ∈ w.trace := by
  unfold send_task_notification
  repeat' split
  all_goals simp [World.emit]

/-- `execute_single_action` leaves the actions, action-type and
dependency tables untouched and preserves which task ids resolve. -/
theorem execute_single_action_tables (w : World) (a : DependencyAction)
    (t : String) (u : User) :
    (execute_single_action w a t u).1.db.actions = w.db.actions ∧
    (execute_single_action w a t u).1.db.action_types = w.db.action_types ∧
    (execute_single_action w a t u).1.db.dependencies = w.db.dependencies ∧
    (∀ x, (getTask (execute_single_action w a t u).1.db x).isSome =
      (getTask w.db x).isSome) := by
  unfold execute_single_action
  dsimp only
  repeat' split
  all_goals refine ⟨?_, ?_, ?_, fun x => ?_⟩
  all_goals first
    | rfl
    | exact getTask_saveTask_isSome _ _ _
    | (rw [send_task_notification_db])

/-- `execute_single_action` only appends to the trace. -/
theorem execute_single_action_traceExt (w : World) (a : DependencyAction)
    (t : String) (u : User) :
    w.trace <+: (execute_single_action w a t u).1.trace := by
  unfold execute_single_action
  dsimp only
  repeat' split
  all_goals first
    | exact List.prefix_refl _
    | exact send_task_notification_traceExt _ _ _ _
    | exact List.IsPrefix.trans (List.prefix_append _ _) (List.prefix_append _ _)

/-- `execute_single_action` never records an evaluator invocation. -/
theorem execute_single_action_evalEdge (w : World) (a : DependencyAction)
    (t : String) (u : User) (d : Nat) :
    Effect.evalEdge d ∈ (execute_single_action w a t u).1.trace ↔
      Effect.evalEdge d ∈ w.trace := by
  unfold execute_single_action
  dsimp only
  repeat' split
  all_goals first
    | exact Iff.rfl
    | exact send_task_notification_evalEdge _ _ _ _ _
    | simp [World.emit, World.setDB]

end TaskFlow

namespace TaskFlow

/-- `getActionType` only reads the action-type table. -/
theorem getActionType_congr (db1 db2 : DB) (x : Nat)
    (h : db1.action_types = db2.action_types) :
    getActionType db1 x = getActionType db2 x := by
  unfold getActionType
  rw [h]

/-- `runOneAction` leaves the actions, action-type and dependency tables
untouched and preserves which task ids resolve. -/
theorem runOneAction_tables (w : World) (dep : TaskDependency) (t : String)
    (u : User) (now : Nat) (a : DependencyAction) :
    (runOneAction w dep t u now a).1.db.actions = w.db.actions ∧
    (runOneAction w dep t u now a).1.db.action_types = w.db.action_types ∧
    (runOneAction w dep t u now a).1.db.dependencies = w.db.dependencies ∧
    (∀ x, (getTask (runOneAction w dep t u now a).1.db x).isSome =
      (getTask w.db x).isSome) := by
  unfold runOneAction
  dsimp only
  repeat' split
  all_goals refine ⟨?_, ?_, ?_, fun x => ?_⟩
  all_goals first
    | rfl
    | exact (execute_single_action_tables _ _ _ _).1
    | exact (execute_single_action_tables _ _ _ _).2.1
    | exact (execute_single_action_tables _ _ _ _).2.2.1
    | exact (execute_single_action_tables _ _ _ _).2.2.2 x

/-- `runOneAction` only appends to the trace. -/
theorem runOneAction_traceExt (w : World) (dep : TaskDependency) (t : String)
    (u : User) (now : Nat) (a : DependencyAction) :
    w.trace <+: (runOneAction w dep t u now a).1.trace := by
  unfold runOneAction
  dsimp only
  repeat' split
  all_goals first
    | exact List.prefix_refl _
    | exact List.prefix_append _ _
    | exact execute_single_action_traceExt _ _ _ _

/-- `runOneAction` never records an evaluator invocation. -/
theorem runOneAction_evalEdge (w : World) (dep : TaskDependency) (t : String)
    (u : User) (now : Nat) (a : DependencyAction) (d : Nat) :
    Effect.evalEdge d ∈ (runOneAction w dep t u now a).1.trace ↔
      Effect.evalEdge d ∈ w.trace := by
  unfold runOneAction
  dsimp only
  repeat' split
  all_goals first
    | exact Iff.rfl
    | exact execute_single_action_evalEdge _ _ _ _ _
    | simp [World.emit, World.setDB]

/-- `runOneAction` succeeds whenever the action's type row resolves. -/
theorem runOneAction_ok (w : World) (dep : TaskDependency) (t : String)
    (u : User) (now : Nat) (a : DependencyAction)
    (h : (getActionType w.db a.action_type).isSome) :
    ∃ r, (runOneAction w dep t u now a).2 = .ok r := by
  unfold runOneAction
  dsimp only
  split
  · split
    · rename_i hma
      exfalso
      have hnone : getActionType w.db a.action_type = none := hma
      rw [hnone] at h
      simp at h
    · exact ⟨_, rfl⟩
  · unfold execute_single_action
    cases hma : getActionType w.db a.action_type with
    | none =>
      exfalso
      rw [hma] at h
      simp at h
    | some ty =>
      simp only [hma]
      try dsimp only
      repeat' split
      all_goals exact ⟨_, rfl⟩

/-- Membership after stable ordered insertion. -/
theorem mem_insertByOrder (a b : DependencyAction)
    (l : List DependencyAction) :
    b ∈ insertByOrder a l ↔ b = a ∨ b ∈ l := by
  induction l with
  | nil => simp [insertByOrder]
  | cons c rest ih =>
    unfold insertByOrder
    split
    · simp [List.mem_cons]
      try tauto
    · simp only [List.mem_cons, ih]
      try tauto

/-- `sortByOrder` permutes its input: membership is unchanged. -/
theorem mem_sortByOrder (b : DependencyAction) (l : List DependencyAction) :
    b ∈ sortByOrder l ↔ b ∈ l := by
  have key : ∀ (l acc : List DependencyAction),
      b ∈ l.foldl (fun acc a => insertByOrder a acc) acc ↔
        b ∈ acc ∨ b ∈ l := by
    intro l
    induction l with
    | nil => intro acc; simp
    | cons a rest ih =>
      intro acc
      simp only [List.foldl_cons, ih, mem_insertByOrder, List.mem_cons]
      tauto
  have h := key l []
  simp only [sortByOrder, h]
  simp

/-- The action loop of the evaluator: table invariants, trace-append
shape, and absence of new evaluator-invocation marks. -/
theorem runActions_spec (dep : TaskDependency) (t : String) (u : User)
    (now : Nat) :
    ∀ (l : List DependencyAction) (w : World) (acc : List ActionResult),
      (runActions w dep t u now l acc).1.db.actions = w.db.actions ∧
      (runActions w dep t u now l acc).1.db.action_types = w.db.action_types ∧
      (runActions w dep t u now l acc).1.db.dependencies =
        w.db.dependencies ∧
      (∀ x, (getTask (runActions w dep t u now l acc).1.db x).isSome =
        (getTask w.db x).isSome) ∧
      w.trace <+: (runActions w dep t u now l acc).1.trace ∧
      (∀ d, Effect.evalEdge d ∈ (runActions w dep t u now l acc).1.trace ↔
        Effect.evalEdge d ∈ w.trace) := by
  intro l
  induction l with
  | nil =>
    intro w acc
    exact ⟨rfl, rfl, rfl, fun _ => rfl, List.prefix_refl _, fun _ => Iff.rfl⟩
  | cons a rest ih =>
    intro w acc
    cases hs : (runOneAction w dep t u now a).2 with
    | error e =>
      simp only [runActions, hs]
      exact ⟨(runOneAction_tables w dep t u now a).1,
        (runOneAction_tables w dep t u now a).2.1,
        (runOneAction_tables w dep t u now a).2.2.1,
        (runOneAction_tables w dep t u now a).2.2.2,
        runOneAction_traceExt w dep t u now a,
        fun d => runOneAction_evalEdge w dep t u now a d⟩
    | ok r =>
      simp only [runActions, hs]
      obtain ⟨h1, h2, h3, h4, h5, h6⟩ :=
        ih (runOneAction w dep t u now a).1 (acc ++ [r])
      exact ⟨h1.trans (runOneAction_tables w dep t u now a).1,
        h2.trans (runOneAction_tables w dep t u now a).2.1,
        h3.trans (runOneAction_tables w dep t u now a).2.2.1,
        fun x => (h4 x).trans ((runOneAction_tables w dep t u now a).2.2.2 x),
        (runOneAction_traceExt w dep t u now a).trans h5,
        fun d => (h6 d).trans (runOneAction_evalEdge w dep t u now a d)⟩

/-- The action loop succeeds when every listed action's type resolves. -/
theorem runActions_ok (dep : TaskDependency) (t : String) (u : User)
    (now : Nat) :
    ∀ (l : List DependencyAction) (w : World) (acc : List ActionResult),
      (∀ a ∈ l, (getActionType w.db a.action_type).isSome) →
      ∃ rs, (runActions w dep t u now l acc).2 = .ok rs := by
  intro l
  induction l with
  | nil => intro w acc _; exact ⟨acc, rfl⟩
  | cons a rest ih =>
    intro w acc h
    obtain ⟨r, hr⟩ :=
      runOneAction_ok w dep t u now a (h a (List.mem_cons_self a rest))
    simp only [runActions, hr]
    apply ih
    intro b hb
    rw [getActionType_congr _ w.db _ ((runOneAction_tables w dep t u now a).2.1)]
    exact h b (List.mem_cons_of_mem a hb)

end TaskFlow

namespace TaskFlow

/-- The evaluator leaves the actions, action-type and dependency tables
untouched and preserves which task ids resolve. -/
theorem eda_tables (w : World) (dep : TaskDependency) (t : String) (u : User)
    (now : Nat) :
    (execute_dependency_actions w dep t u now).1.db.actions =
      w.db.actions ∧
    (execute_dependency_actions w dep t u now).1.db.action_types =
      w.db.action_types ∧
    (execute_dependency_actions w dep t u now).1.db.dependencies =
      w.db.dependencies ∧
    (∀ x, (getTask (execute_dependency_actions w dep t u now).1.db x).isSome =
      (getTask w.db x).isSome) := by
  unfold execute_dependency_actions
  dsimp only
  obtain ⟨h1, h2, h3, h4, h5, h6⟩ := runActions_spec dep t u now
    (sortByOrder ((w.emit (.evalEdge dep.id)).db.actions.filter (fun a =>
      a.dependency == dep.id && a.is_active)))
    (w.emit (.evalEdge dep.id)) []
  exact ⟨h1, h2, h3, h4⟩

/-- The evaluator only appends to the trace. -/
theorem eda_traceExt (w : World) (dep : TaskDependency) (t : String) (u : User)
    (now : Nat) :
    w.trace <+: (execute_dependency_actions w dep t u now).1.trace := by
  unfold execute_dependency_actions
  dsimp only
  refine List.IsPrefix.trans ?_ (runActions_spec dep t u now _ _ _).2.2.2.2.1
  exact List.prefix_append _ _

/-- The evaluator marks exactly its own edge in the trace: an
`evalEdge d` mark is present afterwards iff it was present before or `d`
is the evaluated edge. -/
theorem eda_evalEdge (w : World) (dep : TaskDependency) (t : String)
    (u : User) (now : Nat) (d : Nat) :
    Effect.evalEdge d ∈ (execute_dependency_actions w dep t u now).1.trace ↔
      (Effect.evalEdge d ∈ w.trace ∨ d = dep.id) := by
  unfold execute_dependency_actions
  dsimp only
  rw [(runActions_spec dep t u now _ _ _).2.2.2.2.2 d]
  simp [World.emit]

/-- The evaluator succeeds when the type row of every active action of
the edge resolves. -/
theorem eda_ok (w : World) (dep : TaskDependency) (t : String) (u : User)
    (now : Nat)
    (h : ∀ a ∈ w.db.actions, a.dependency = dep.id → a.is_active = true →
      (getActionType w.db a.action_type).isSome) :
    ∃ rs, (execute_dependency_actions w dep t u now).2 = .ok rs := by
  unfold execute_dependency_actions
  dsimp only
  apply runActions_ok
  intro a ha
  rw [mem_sortByOrder] at ha
  have hmem := List.mem_of_mem_filter ha
  have hcond := List.of_mem_filter ha
  simp only [Bool.and_eq_true, beq_iff_eq] at hcond
  exact h a hmem hcond.1 hcond.2

/-- The loop of `handle_task_completed`: under resolvable target tasks
and action types it succeeds, it only appends to the trace, and the
evaluator-invocation marks it adds are exactly the ids of the processed
edges. -/
theorem handleDeps_spec (u : User) (now : Nat) :
    ∀ (l : List TaskDependency) (w : World) (acc : List ActionResult),
      (∀ dep ∈ l, (getTask w.db dep.target_task).isSome) →
      (∀ dep ∈ l, ∀ a ∈ w.db.actions, a.dependency = dep.id →
        a.is_active = true → (getActionType w.db a.action_type).isSome) →
      (∃ rs, (handleDeps w u now l acc).2 = .ok rs) ∧
      w.trace <+: (handleDeps w u now l acc).1.trace ∧
      (∀ d, Effect.evalEdge d ∈ (handleDeps w u now l acc).1.trace ↔
        (Effect.evalEdge d ∈ w.trace ∨ d ∈ l.map (fun dep => dep.id))) := by
  intro l
  induction l with
  | nil =>
    intro w acc _ _
    exact ⟨⟨acc, rfl⟩, List.prefix_refl _, fun d => by simp [handleDeps]⟩
  | cons dep rest ih =>
    intro w acc hwf1 hwf2
    obtain ⟨rs, hrs⟩ := eda_ok w dep "task_completed" u now
      (hwf2 dep (List.mem_cons_self dep rest))
    have htask : (getTask
        (execute_dependency_actions w dep "task_completed" u now).1.db
        dep.target_task).isSome := by
      rw [(eda_tables w dep "task_completed" u now).2.2.2 dep.target_task]
      exact hwf1 dep (List.mem_cons_self dep rest)
    obtain ⟨target, htarget⟩ := Option.isSome_iff_exists.mp htask
    simp only [handleDeps, hrs, htarget]
    obtain ⟨hok, hpre, hiff⟩ := ih
      (execute_dependency_actions w dep "task_completed" u now).1 (acc ++ rs)
      (fun dd hdd => by
        rw [(eda_tables w dep "task_completed" u now).2.2.2 dd.target_task]
        exact hwf1 dd (List.mem_cons_of_mem dep hdd))
      (fun dd hdd a ha hadep hact => by
        rw [getActionType_congr _ w.db _
          (eda_tables w dep "task_completed" u now).2.1]
        apply hwf2 dd (List.mem_cons_of_mem dep hdd) a _ hadep hact
        rw [← (eda_tables w dep "task_completed" u now).1]
        exact ha)
    refine ⟨hok, (eda_traceExt w dep "task_completed" u now).trans hpre,
      fun d => ?_⟩
    rw [hiff d, eda_evalEdge w dep "task_completed" u now d]
    simp only [List.map_cons, List.mem_cons]
    tauto

end TaskFlow

namespace TaskFlow

/-- C3: `change_task_status` invokes the dependency-action evaluator on
exactly the outgoing edges of the task, and it does so if and only if the
transition crosses the final boundary (old status non-final, new status
final); moreover the status write is the first recorded effect, so it
precedes every evaluator dispatch. Stated for a run with an empty initial
trace, under a well-formed status table (equal ids mean equal rows) and
resolvable foreign keys for the outgoing edges and their active
actions. -/
theorem change_task_status_eval_boundary (db : DB) (task : Task) (S : String)
    (u : User) (now : Nat) (newst oldst : TaskStatus)
    (hperm : can_edit_task db u task = true)
    (hnew : get_status_by_name db S = some newst)
    (hold : getStatus db task.status = some oldst)
    (hids : oldst.id = newst.id → oldst = newst)
    (hwf1 : ∀ dep ∈ outgoingDeps db task, (getTask db dep.target_task).isSome)
    (hwf2 : ∀ dep ∈ outgoingDeps db task, ∀ a ∈ db.actions,
      a.dependency = dep.id → a.is_active = true →
      (getActionType db a.action_type).isSome) :
    (∃ res, (change_task_status ⟨db, []⟩ task S u now).2 = .ok res) ∧
    (∀ d, Effect.evalEdge d ∈
        (change_task_status ⟨db, []⟩ task S u now).1.trace ↔
      (oldst.is_final = false ∧ newst.is_final = true ∧
        d ∈ (outgoingDeps db task).map (fun dep => dep.id))) ∧
    (∀ d, Effect.evalEdge d ∈
        (change_task_status ⟨db, []⟩ task S u now).1.trace →
      (change_task_status ⟨db, []⟩ task S u now).1.trace.head? =
        some (.statusWrite task.id newst.id)) := by
  by_cases hsame : oldst.id = newst.id
  · have heq := hids hsame
    subst heq
    have hred : change_task_status ⟨db, []⟩ task S u now =
        (⟨db, []⟩,
         .ok { task := task, status_changed := false, old_status := oldst,
               new_status := oldst, actions_executed := [] }) := by
      simp [change_task_status, hperm, hnew, hold]
    rw [hred]
    refine ⟨⟨_, rfl⟩, fun d => ?_, fun d hd => ?_⟩
    · constructor
      · intro hx
        exact absurd hx (List.not_mem_nil _)
      · rintro ⟨h1, h2, -⟩
        rw [h1] at h2
        cases h2
    · exact absurd hd (List.not_mem_nil _)
  · have hbeq : (oldst.id == newst.id) = false := beq_eq_false_iff_ne.mpr hsame
    by_cases hb : (newst.is_final && !oldst.is_final) = true
    · have hfin : newst.is_final = true ∧ oldst.is_final = false := by
        have hb2 := hb
        simp only [Bool.and_eq_true, Bool.not_eq_true'] at hb2
        exact hb2
      have hnewfin : newst.is_final = true := hfin.1
      have holdfin : oldst.is_final = false := hfin.2
      have hmain : change_task_status ⟨db, []⟩ task S u now =
          (let w1 : World :=
            ⟨logEvent (saveTask db { task with status := newst.id })
              task.project task.id u.id "status_changed"
              (some oldst.name) (some newst.name),
             [.statusWrite task.id newst.id,
              .logged task.id "status_changed"]⟩
           let step := handle_task_completed w1
             { task with status := newst.id } u now
           match step.2 with
           | .ok acts =>
             (step.1,
              .ok { task := { task with status := newst.id },
                    status_changed := true, old_status := oldst,
                    new_status := newst, actions_executed := acts })
           | .error _ =>
             (step.1,
              .ok { task := { task with status := newst.id },
                    status_changed := true, old_status := oldst,
                    new_status := newst, actions_executed := [] })) := by
        simp [change_task_status, hperm, hnew, hold, hbeq, hb,
          World.emit, World.setDB]
      rw [hmain]
      dsimp only
      have hwf1w : ∀ dep ∈ outgoingDeps db task,
          (getTask (logEvent (saveTask db { task with status := newst.id })
            task.project task.id u.id "status_changed"
            (some oldst.name) (some newst.name)) dep.target_task).isSome := by
        intro dep hd
        rw [getTask_logEvent, getTask_saveTask_isSome]
        exact hwf1 dep hd
      have hspec := handleDeps_spec u now (outgoingDeps db task)
        ⟨logEvent (saveTask db { task with status := newst.id })
          task.project task.id u.id "status_changed"
          (some oldst.name) (some newst.name),
         [.statusWrite task.id newst.id, .logged task.id "status_changed"]⟩
        [] hwf1w hwf2
      obtain ⟨⟨rs, hrs⟩, hpre, hiff⟩ := hspec
      have hhtc : handle_task_completed
          ⟨logEvent (saveTask db { task with status := newst.id })
            task.project task.id u.id "status_changed"
            (some oldst.name) (some newst.name),
           [.statusWrite task.id newst.id,
            .logged task.id "status_changed"]⟩
          { task with status := newst.id } u now =
          handleDeps
            ⟨logEvent (saveTask db { task with status := newst.id })
              task.project task.id u.id "status_changed"
              (some oldst.name) (some newst.name),
             [.statusWrite task.id newst.id,
              .logged task.id "status_changed"]⟩
            u now (outgoingDeps db task) [] := rfl
      cases hstep : (handle_task_completed
          ⟨logEvent (saveTask db { task with status := newst.id })
            task.project task.id u.id "status_changed"
            (some oldst.name) (some newst.name),
           [.statusWrite task.id newst.id,
            .logged task.id "status_changed"]⟩
          { task with status := newst.id } u now).2 with
      | ok acts =>
        rw [hhtc]
        refine ⟨⟨_, rfl⟩, fun d => ?_, fun d hd => ?_⟩
        · rw [hiff d]
          simp [hnewfin, holdfin]
        · obtain ⟨tail, htail⟩ := hpre
          rw [← htail]
          rfl
      | error e =>
        rw [hhtc]
        refine ⟨⟨_, rfl⟩, fun d => ?_, fun d hd => ?_⟩
        · rw [hiff d]
          simp [hnewfin, holdfin]
        · obtain ⟨tail, htail⟩ := hpre
          rw [← htail]
          rfl
    · have hred : change_task_status ⟨db, []⟩ task S u now =
          (⟨logEvent (saveTask db { task with status := newst.id })
              task.project task.id u.id "status_changed"
              (some oldst.name) (some newst.name),
            [.statusWrite task.id newst.id,
             .logged task.id "status_changed"]⟩,
           .ok { task := { task with status := newst.id },
                 status_changed := true, old_status := oldst,
                 new_status := newst, actions_executed := [] }) := by
        simp [change_task_status, hperm, hnew, hold, hbeq, hb,
          World.emit, World.setDB]
      rw [hred]
      refine ⟨⟨_, rfl⟩, fun d => ?_, fun d hd => ?_⟩
      · constructor
        · intro hx
          simp at hx
        · rintro ⟨h1, h2, -⟩
          rw [h1, h2] at hb
          simp at hb
      · simp at hd

end TaskFlow

namespace TaskFlow

/-- Witness for `change_task_status_eval_boundary`: completing `A` in
`dbNotify` crosses the final boundary, evaluates the single outgoing edge
`A → B`, and records the status write first. -/
theorem change_task_status_eval_boundary_witness :
    (∃ res, (change_task_status ⟨dbNotify, []⟩ taskA "completed" uOwner 0).2 =
      .ok res) ∧
    (Effect.evalEdge depAB.id ∈
        (change_task_status ⟨dbNotify, []⟩ taskA "completed" uOwner 0).1.trace ↔
      (stTodo.is_final = false ∧ stCompleted.is_final = true ∧
        depAB.id ∈ (outgoingDeps dbNotify taskA).map (fun dep => dep.id))) ∧
    (change_task_status ⟨dbNotify, []⟩ taskA "completed" uOwner 0).1.trace.head? =
      some (.statusWrite taskA.id stCompleted.id) := by
  have h := change_task_status_eval_boundary dbNotify taskA "completed" uOwner 0
    stCompleted stTodo rfl rfl rfl (by decide) (by decide) (by decide)
  exact ⟨h.1, h.2.1 depAB.id,
    h.2.2 depAB.id ((h.2.1 depAB.id).mpr ⟨rfl, rfl, by decide⟩)⟩

end TaskFlow

namespace TaskFlow

/-- The DFS only ever grows the visited list. -/
theorem dfs_mono (db : DB) (proj srcId : Nat) :
    ∀ fuel : Nat,
      (∀ taskId visited,
        visited ⊆ (dfsVisit db proj srcId fuel taskId visited).2) ∧
      (∀ deps visited,
        visited ⊆ (dfsFold db proj srcId fuel deps visited).2) := by
  have foldStep : ∀ fuel : Nat,
      (∀ taskId visited,
        visited ⊆ (dfsVisit db proj srcId fuel taskId visited).2) →
      ∀ deps visited,
        visited ⊆ (dfsFold db proj srcId fuel deps visited).2 := by
    intro fuel hP deps
    induction deps with
    | nil => intro v; simp [dfsFold]
    | cons d rest ih =>
      intro v
      simp only [dfsFold]
      cases hv : dfsVisit db proj srcId fuel d.target_task v with
      | mk b v1 =>
        have hv1 : v ⊆ v1 := by
          have := hP d.target_task v
          rw [hv] at this
          exact this
        cases b
        · exact hv1.trans (ih v1)
        · exact hv1
  intro fuel
  induction fuel with
  | zero =>
    constructor
    · intro t v
      simp [dfsVisit]
    · exact foldStep 0 (fun t v => by simp [dfsVisit])
  | succ f ih =>
    have hP : ∀ taskId visited,
        visited ⊆ (dfsVisit db proj srcId (f + 1) taskId visited).2 := by
      intro t v
      simp only [dfsVisit]
      by_cases h1 : t = srcId
      · rw [if_pos h1]
        exact fun x hx => hx
      · rw [if_neg h1]
        by_cases h2 : t ∈ v
        · rw [if_pos h2]
          exact fun x hx => hx
        · rw [if_neg h2]
          exact (List.subset_cons_self t v).trans (foldStep f ih.1 _ _)
    exact ⟨hP, foldStep (f + 1) hP⟩

/-- The DFS closure invariant composes along growing visited lists. -/
theorem dfsClosed_trans (db : DB) (proj srcId : Nat)
    (v2 v1 v0 : List Nat) (h12 : v1 ⊆ v2)
    (hc1 : dfsClosed db proj srcId v1 v0)
    (hc2 : dfsClosed db proj srcId v2 v1) :
    dfsClosed db proj srcId v2 v0 := by
  intro x hx hx0
  by_cases hx1 : x ∈ v1
  · obtain ⟨hne, hsucc⟩ := hc1 x hx1 hx0
    exact ⟨hne, fun d hd hp hs => h12 (hsucc d hd hp hs)⟩
  · exact hc2 x hx hx1

end TaskFlow

namespace TaskFlow

/-- Main invariant of the cycle-check DFS: when it answers `false` with
enough fuel (one more than the number of not-yet-visited candidate ids),
the starting id has been fully explored — it is in the final visited
list, and everything newly visited avoids `srcId` and is closed under
edge successors. -/
theorem dfs_false_closed (db : DB) (proj srcId : Nat) (U : Finset Nat)
    (hU : ∀ d ∈ db.dependencies, d.project = proj → d.target_task ∈ U) :
    ∀ fuel : Nat,
      (∀ taskId visited v2,
        (U.filter (fun x => x ∉ visited)).card + 1 ≤ fuel →
        (taskId = srcId ∨ taskId ∈ U) →
        dfsVisit db proj srcId fuel taskId visited = (false, v2) →
        visited ⊆ v2 ∧ taskId ∈ v2 ∧ dfsClosed db proj srcId v2 visited) ∧
      (∀ deps visited v2,
        (U.filter (fun x => x ∉ visited)).card + 1 ≤ fuel →
        (∀ d ∈ deps, d ∈ db.dependencies ∧ d.project = proj) →
        dfsFold db proj srcId fuel deps visited = (false, v2) →
        visited ⊆ v2 ∧ (∀ d ∈ deps, d.target_task ∈ v2) ∧
        dfsClosed db proj srcId v2 visited) := by
  have foldStep : ∀ fuel : Nat,
      (∀ taskId visited v2,
        (U.filter (fun x => x ∉ visited)).card + 1 ≤ fuel →
        (taskId = srcId ∨ taskId ∈ U) →
        dfsVisit db proj srcId fuel taskId visited = (false, v2) →
        visited ⊆ v2 ∧ taskId ∈ v2 ∧ dfsClosed db proj srcId v2 visited) →
      ∀ deps visited v2,
        (U.filter (fun x => x ∉ visited)).card + 1 ≤ fuel →
        (∀ d ∈ deps, d ∈ db.dependencies ∧ d.project = proj) →
        dfsFold db proj srcId fuel deps visited = (false, v2) →
        visited ⊆ v2 ∧ (∀ d ∈ deps, d.target_task ∈ v2) ∧
        dfsClosed db proj srcId v2 visited := by
    intro fuel hP deps
    induction deps with
    | nil =>
      intro v v2 hfuel hdeps hfold
      simp only [dfsFold] at hfold
      have hv2 : v2 = v := (congrArg Prod.snd hfold).symm
      subst hv2
      exact ⟨fun x hx => hx, fun d hd => absurd hd (List.not_mem_nil d),
        fun x hx hnx => absurd hx hnx⟩
    | cons d rest ih =>
      intro v v2 hfuel hdeps hfold
      simp only [dfsFold] at hfold
      cases hv : dfsVisit db proj srcId fuel d.target_task v with
      | mk b v1 =>
        simp only [hv] at hfold
        cases b
        · obtain ⟨hvv1, htv1, hc1⟩ := hP d.target_task v v1 hfuel
            (Or.inr (hU d (hdeps d (List.mem_cons_self d rest)).1
              (hdeps d (List.mem_cons_self d rest)).2)) hv
          have hsub2 : U.filter (fun x => x ∉ v1) ⊆
              U.filter (fun x => x ∉ v) := by
            intro x hx
            rw [Finset.mem_filter] at hx ⊢
            exact ⟨hx.1, fun hxv => hx.2 (hvv1 hxv)⟩
          have hfuel1 : (U.filter (fun x => x ∉ v1)).card + 1 ≤ fuel := by
            have := Finset.card_le_card hsub2
            omega
          obtain ⟨hv1v2, hrest, hc2⟩ := ih v1 v2 hfuel1
            (fun d2 hd2 => hdeps d2 (List.mem_cons_of_mem d hd2)) hfold
          refine ⟨hvv1.trans hv1v2, ?_,
            dfsClosed_trans db proj srcId v2 v1 v hv1v2 hc1 hc2⟩
          intro d2 hd2
          rcases List.mem_cons.mp hd2 with h | h
          · subst h; exact hv1v2 htv1
          · exact hrest d2 h
        · exact absurd (congrArg Prod.fst hfold) (by simp)
  intro fuel
  induction fuel with
  | zero =>
    refine ⟨fun t v v2 hfuel _ _ => absurd hfuel (by omega),
      foldStep 0 (fun t v v2 hfuel _ _ => absurd hfuel (by omega))⟩
  | succ f ih =>
    have hP : ∀ taskId visited v2,
        (U.filter (fun x => x ∉ visited)).card + 1 ≤ f + 1 →
        (taskId = srcId ∨ taskId ∈ U) →
        dfsVisit db proj srcId (f + 1) taskId visited = (false, v2) →
        visited ⊆ v2 ∧ taskId ∈ v2 ∧
        dfsClosed db proj srcId v2 visited := by
      intro t v v2 hfuel ht hvis
      simp only [dfsVisit] at hvis
      by_cases h1 : t = srcId
      · rw [if_pos h1] at hvis
        exact absurd (congrArg Prod.fst hvis) (by simp)
      · rw [if_neg h1] at hvis
        by_cases h2 : t ∈ v
        · rw [if_pos h2] at hvis
          have hv2 : v2 = v := (congrArg Prod.snd hvis).symm
          subst hv2
          exact ⟨fun x hx => hx, h2, fun x hx hnx => absurd hx hnx⟩
        · rw [if_neg h2] at hvis
          have htU : t ∈ U := ht.resolve_left h1
          have hmemf : t ∈ U.filter (fun x => x ∉ v) :=
            Finset.mem_filter.mpr ⟨htU, h2⟩
          have hfe : U.filter (fun x => x ∉ (t :: v)) =
              (U.filter (fun x => x ∉ v)).erase t := by
            ext x
            simp only [Finset.mem_filter, Finset.mem_erase, List.mem_cons]
            constructor
            · rintro ⟨hxU, hx⟩
              push_neg at hx
              exact ⟨hx.1, hxU, hx.2⟩
            · rintro ⟨hxt, hxU, hxv⟩
              refine ⟨hxU, ?_⟩
              intro hmem
              rcases hmem with h | h
              · exact hxt h
              · exact hxv h
          have hcard : (U.filter (fun x => x ∉ (t :: v))).card + 1 ≤ f := by
            rw [hfe, Finset.card_erase_of_mem hmemf]
            have hpos : 0 < (U.filter (fun x => x ∉ v)).card :=
              Finset.card_pos.mpr ⟨t, hmemf⟩
            omega
          have hdeps : ∀ d ∈ depsFrom db proj t,
              d ∈ db.dependencies ∧ d.project = proj := by
            intro d hd
            have hmem := List.mem_of_mem_filter hd
            have hcond := List.of_mem_filter hd
            simp only [Bool.and_eq_true, beq_iff_eq] at hcond
            exact ⟨hmem, hcond.1⟩
          obtain ⟨hsub, htv2, hc⟩ := foldStep f ih.1 (depsFrom db proj t)
            (t :: v) v2 hcard hdeps hvis
          refine ⟨(List.subset_cons_self t v).trans hsub,
            hsub (List.mem_cons_self t v), ?_⟩
          intro x hx hnx
          by_cases hxt : x = t
          · subst hxt
            refine ⟨h1, ?_⟩
            intro d hd hdp hds
            apply htv2 d
            exact List.mem_filter.mpr ⟨hd, by simp [hdp, hds]⟩
          · have hnx2 : x ∉ t :: v := by
              simp only [List.mem_cons]
              push_neg
              exact ⟨hxt, hnx⟩
            exact hc x hx hnx2
    exact ⟨hP, foldStep (f + 1) hP⟩

end TaskFlow

namespace TaskFlow

/-- Completeness of the cycle-check DFS: if the insertion source is
reachable from the insertion target over the project's current edges,
`would_create_cycle` answers `true`. -/
theorem would_create_cycle_of_reach (db : DB) (s t : Task)
    (hreach : Reach db s.project t.id s.id) :
    would_create_cycle db s t = true := by
  unfold would_create_cycle
  by_contra hfalse
  have hfst : (dfsVisit db s.project s.id (db.dependencies.length + 2)
      t.id []).1 = false := by
    cases hx : (dfsVisit db s.project s.id (db.dependencies.length + 2)
        t.id []).1
    · rfl
    · exact absurd hx hfalse
  have heq : dfsVisit db s.project s.id (db.dependencies.length + 2) t.id [] =
      (false, (dfsVisit db s.project s.id (db.dependencies.length + 2)
        t.id []).2) :=
    Prod.ext hfst rfl
  set U : Finset Nat := insert t.id
    ((db.dependencies.filter (fun d => d.project == s.project)).map
      (fun d => d.target_task)).toFinset with hUdef
  have hU : ∀ d ∈ db.dependencies, d.project = s.project →
      d.target_task ∈ U := by
    intro d hd hp
    apply Finset.mem_insert_of_mem
    rw [List.mem_toFinset]
    exact List.mem_map_of_mem _ (List.mem_filter.mpr ⟨hd, by simp [hp]⟩)
  have hcardU : U.card ≤ db.dependencies.length + 1 := by
    apply le_trans (Finset.card_insert_le _ _)
    have h1 := List.toFinset_card_le
      ((db.dependencies.filter (fun d => d.project == s.project)).map
        (fun d => d.target_task))
    have h3 := List.length_filter_le
      (fun d : TaskDependency => d.project == s.project) db.dependencies
    rw [List.length_map] at h1
    omega
  have hfuel : (U.filter (fun x => x ∉ ([] : List Nat))).card + 1 ≤
      db.dependencies.length + 2 := by
    have hall : U.filter (fun x => x ∉ ([] : List Nat)) = U := by
      apply Finset.filter_true_of_mem
      intro x _
      exact List.not_mem_nil x
    rw [hall]
    omega
  obtain ⟨-, htv2, hclosed⟩ :=
    (dfs_false_closed db s.project s.id U hU
      (db.dependencies.length + 2)).1 t.id []
      (dfsVisit db s.project s.id (db.dependencies.length + 2) t.id []).2
      hfuel (Or.inr (Finset.mem_insert_self _ _)) heq
  have hpath : ∀ y, Reach db s.project t.id y →
      y ∈ (dfsVisit db s.project s.id (db.dependencies.length + 2)
        t.id []).2 := by
    intro y hy
    induction hy with
    | refl => exact htv2
    | tail hab hbc ihy =>
      obtain ⟨d, hd, hp, hsrc, htgt⟩ := hbc
      have hclose := hclosed _ ihy (List.not_mem_nil _)
      rw [← htgt]
      exact hclose.2 d hd hp hsrc
  have hs := hpath s.id hreach
  exact (hclosed s.id hs (List.not_mem_nil _)).1 rfl

/-- Edge membership after appending one dependency row. -/
theorem depStep_append (db db2 : DB) (nd : TaskDependency)
    (h : db2.dependencies = db.dependencies ++ [nd]) (proj a b : Nat) :
    depStep db2 proj a b ↔
      (depStep db proj a b ∨
        (nd.project = proj ∧ nd.source_task = a ∧ nd.target_task = b)) := by
  unfold depStep
  rw [h]
  constructor
  · rintro ⟨d, hd, hp, hs, ht⟩
    rcases List.mem_append.mp hd with hd | hd
    · exact Or.inl ⟨d, hd, hp, hs, ht⟩
    · have hnd := List.mem_singleton.mp hd
      subst hnd
      exact Or.inr ⟨hp, hs, ht⟩
  · rintro (⟨d, hd, hp, hs, ht⟩ | ⟨hp, hs, ht⟩)
    · exact ⟨d, List.mem_append_left _ hd, hp, hs, ht⟩
    · exact ⟨nd, List.mem_append_right _ (List.mem_singleton_self nd),
        hp, hs, ht⟩

/-- A path in the extended graph either avoids the new edge or decomposes
through it. -/
theorem reach_append_cases (db db2 : DB) (nd : TaskDependency)
    (h : db2.dependencies = db.dependencies ++ [nd]) (proj a b : Nat)
    (hr : Reach db2 proj a b) :
    Reach db proj a b ∨
      (Reach db proj a nd.source_task ∧ Reach db proj nd.target_task b) := by
  induction hr with
  | refl => exact Or.inl Relation.ReflTransGen.refl
  | tail hab hbc ih =>
    rcases (depStep_append db db2 nd h proj _ _).mp hbc with hold | ⟨hp, hs, ht⟩
    · rcases ih with ihl | ⟨ihs, iht⟩
      · exact Or.inl (ihl.tail hold)
      · exact Or.inr ⟨ihs, iht.tail hold⟩
    · rcases ih with ihl | ⟨ihs, iht⟩
      · refine Or.inr ⟨?_, ?_⟩
        · rw [hs]
          exact ihl
        · rw [ht]
          exact Relation.ReflTransGen.refl
      · refine Or.inr ⟨ihs, ?_⟩
        rw [ht]
        exact Relation.ReflTransGen.refl

/-- Appending an edge whose source is not reachable from its target
preserves acyclicity of the project's edge set. -/
theorem acyclic_insert (db db2 : DB) (nd : TaskDependency)
    (h : db2.dependencies = db.dependencies ++ [nd]) (proj : Nat)
    (hacy : AcyclicProject db proj)
    (hnr : ¬ Reach db proj nd.target_task nd.source_task) :
    AcyclicProject db2 proj := by
  intro a b hstep hr
  rcases (depStep_append db db2 nd h proj a b).mp hstep with hold | ⟨hp, hs, ht⟩
  · rcases reach_append_cases db db2 nd h proj b a hr with hro | ⟨hr1, hr2⟩
    · exact hacy a b hold hro
    · apply hnr
      exact Relation.ReflTransGen.trans (hr2.tail hold) hr1
  · rcases reach_append_cases db db2 nd h proj b a hr with hro | ⟨hr1, hr2⟩
    · apply hnr
      rw [hs, ht]
      exact hro
    · apply hnr
      rw [ht]
      exact hr1

end TaskFlow

namespace TaskFlow

/-- C2. `create_dependency` preserves acyclicity of the project's
dependency edge set: whenever the source is reachable from the target
over the current edges of the project (in particular for a self-loop),
the insert is rejected with the would-create-cycle `ValueError` and the
world — hence the dependency table — is unchanged; and whenever the call
returns `ok`, the project's edge set is still acyclic. Stated under a
passing permission check and the same-project hypothesis (the checks the
code runs first). -/
theorem create_dependency_cycle_safe
    (db : DB) (trace : List Effect) (s t : Task) (u : User)
    (dtype : String) (now : Nat)
    (hperm : can_create_dependencies db u s = .ok true)
    (hproj : s.project = t.project) :
    (Reach db s.project t.id s.id →
      create_dependency ⟨db, trace⟩ s t u dtype now =
        (⟨db, trace⟩,
         .error (.valueError "This dependency would create a cycle"))) ∧
    (s.id = t.id →
      create_dependency ⟨db, trace⟩ s t u dtype now =
        (⟨db, trace⟩,
         .error (.valueError "This dependency would create a cycle"))) ∧
    (∀ w2 dep, create_dependency ⟨db, trace⟩ s t u dtype now = (w2, .ok dep) →
      AcyclicProject db s.project → AcyclicProject w2.db s.project) := by
  have hreject : would_create_cycle db s t = true →
      create_dependency ⟨db, trace⟩ s t u dtype now =
        (⟨db, trace⟩,
         .error (.valueError "This dependency would create a cycle")) := by
    intro hcyc
    simp [create_dependency, hperm, hcyc, hproj]
  refine ⟨?_, ?_, ?_⟩
  · intro hr
    exact hreject (would_create_cycle_of_reach db s t hr)
  · intro hid
    apply hreject
    apply would_create_cycle_of_reach
    rw [hid]
    exact Relation.ReflTransGen.refl
  · intro w2 dep hok hacy
    by_cases hcyc : would_create_cycle db s t = true
    · rw [hreject hcyc] at hok
      exact absurd (congrArg Prod.snd hok) (by simp)
    · have hwccf : would_create_cycle db s t = false := by
        cases hx : would_create_cycle db s t
        · rfl
        · exact absurd hx hcyc
      have hnr0 : ¬ Reach db s.project t.id s.id := by
        intro hr
        have hw := would_create_cycle_of_reach db s t hr
        rw [hwccf] at hw
        exact Bool.noConfusion hw
      simp only [create_dependency, hperm, hwccf] at hok
      simp only [Bool.not_true, Bool.false_eq_true, if_false, ite_false] at hok
      repeat' split at hok
      all_goals rw [Prod.mk.injEq] at hok
      all_goals first
        | exact absurd hok.2 (fun h => Except.noConfusion h)
        | (rw [← hok.1]
           refine acyclic_insert db _
             { id := db.next_id, project := s.project, source_task := s.id,
               target_task := t.id, dependency_type := dtype,
               created_by := u.id } ?_ s.project hacy hnr0
           first
             | (rw [(eda_tables _ _ _ _ _).2.2.1]; rfl)
             | rfl)

end TaskFlow

namespace TaskFlow

/-- Witness for C2: on `dbChain` (edge `A → B` present) the insert of
`B → A` is rejected with the cycle `ValueError` and the world is
unchanged. -/
theorem create_dependency_cycle_safe_witness :
    create_dependency ⟨dbChain, []⟩ taskB taskA uOwner "simple" 0 =
      (⟨dbChain, []⟩,
       .error (.valueError "This dependency would create a cycle")) :=
  (create_dependency_cycle_safe dbChain [] taskB taskA uOwner "simple" 0
      rfl rfl).1
    (Relation.ReflTransGen.single
      ⟨depAB, by simp [dbChain], rfl, rfl, rfl⟩)

end TaskFlow
